import Mathlib

/-!
Verification of the flow-field pathfinding core, geometry primitives and
spawner lifecycle of the `train_game` repository.

Shallow embedding conventions:
* `u32` values are modelled as `Nat`; the infinite-cost sentinel is the
  concrete value `u32::MAX = 4294967295` (`U32MAX` below).  Cost arithmetic
  (`cost + step_cost`) is modelled without a wrap because every state
  considered keeps costs far below `2^32` (a debug build of the source would
  panic on overflow rather than wrap).
* `f32` quantities (timer durations, tile coordinates, directions) are
  modelled as `ℚ`.  All concrete inputs used in theorems are dyadic rationals
  on which every `f32` operation performed by the source is exact, so the
  rational computation mirrors the floating-point one.
* The wavefront priority queue is modelled by the exact algorithm of Rust's
  `std::collections::BinaryHeap` (vector layout, `sift_up`,
  `sift_down_to_bottom`), specialised to the `Node` ordering implemented in
  `flowfield.rs` (`other.cost.cmp(&self.cost)`, i.e. a min-heap on `cost`).
  This makes the model's pop order, including tie-breaking, the same as the
  binary's.
-/

/-- `u32::MAX`, used by `flowfield.rs` as the infinite-cost / wall sentinel. -/
def U32MAX : Nat := 4294967295

/-- Heap entry of the cost wavefront (`struct Node` in `flowfield.rs`). -/
structure Node where
  index : Nat
  cost : Nat
deriving Repr, DecidableEq

/-- Default node used only as the `getD` fallback for in-bounds reads. -/
def dNode : Node := ⟨0, 0⟩

/-- The `Ord` implementation of `Node`:
`cmp(self, other) = other.cost.cmp(&self.cost)`.
`heapLe x y` is `x <= other` in that order, which holds iff `y.cost ≤ x.cost`
(so the max-heap keeps the minimum cost at the root). -/
def heapLe (x y : Node) : Bool := y.cost ≤ x.cost

/-- `BinaryHeap::sift_up` (hole-based): the element `elem` has been removed at
position `pos`; parents greater (in heap order) than `elem` slide down until
the right slot is found, where `elem` is written back.  `fuel ≥ pos` suffices
because the position strictly decreases. -/
def siftUpFuel : Nat → List Node → Node → Nat → Nat → List Node × Nat
  | 0, d, elem, _, pos => (d.set pos elem, pos)
  | fuel + 1, d, elem, start, pos =>
    if start < pos then
      let parent := (pos - 1) / 2
      let pv := d.getD parent dNode
      if heapLe elem pv then (d.set pos elem, pos)
      else siftUpFuel fuel (d.set pos pv) elem start parent
    else (d.set pos elem, pos)

/-- `BinaryHeap::push`: append, then sift the new element up from the end. -/
def heapPush (d : List Node) (item : Node) : List Node :=
  (siftUpFuel d.length (d ++ [item]) item 0 d.length).1

/-- Descent loop of `BinaryHeap::sift_down_to_bottom`: the hole walks to the
bottom of the tree along the greater child (ties pick the right child).
Returns the data and the final hole position.  `fuel ≥ length` suffices. -/
def siftDownLoop : Nat → List Node → Nat → Nat → List Node × Nat
  | 0, d, pos, _ => (d, pos)
  | fuel + 1, d, pos, endd =>
    let child := 2 * pos + 1
    if child + 2 ≤ endd then
      let child := if heapLe (d.getD child dNode) (d.getD (child + 1) dNode)
        then child + 1 else child
      siftDownLoop fuel (d.set pos (d.getD child dNode)) child endd
    else (d, pos)

/-- `BinaryHeap::sift_down_to_bottom(pos)` with `elem` the element lifted out
of the hole at `pos`: walk the hole to the bottom, take the final single child
if one remains, then sift `elem` back up from the bottom position. -/
def siftDownToBottom (d : List Node) (elem : Node) (pos : Nat) : List Node :=
  let endd := d.length
  let start := pos
  let res := siftDownLoop d.length d pos endd
  let d1 := res.1
  let pos1 := res.2
  let child := 2 * pos1 + 1
  let res2 := if child + 1 = endd
    then (d1.set pos1 (d1.getD child dNode), child) else (d1, pos1)
  (siftUpFuel res2.2 res2.1 elem start res2.2).1

/-- `BinaryHeap::pop`: remove the last element; if the heap is still
non-empty, swap it with the root and sift it down.  Returns the removed root
together with the new heap data. -/
def heapPop (d : List Node) : Option (Node × List Node) :=
  match d.getLast? with
  | none => none
  | some last =>
    let d' := d.dropLast
    if d'.length = 0 then some (last, d')
    else
      let root := d'.getD 0 dNode
      some (root, siftDownToBottom (d'.set 0 last) last 0)

/-- The neighbour table of `update_cost`:
`((dx, dy), step_cost, wall_mask)` for N, E, S, W, NE, SE, SW, NW. -/
def NEIGHBORS : List ((Int × Int) × Nat × Nat) :=
  [((0, 1), 10, 0x08), ((1, 0), 10, 0x04), ((0, -1), 10, 0x02),
   ((-1, 0), 10, 0x01), ((1, 1), 14, 0xC0), ((1, -1), 14, 0x60),
   ((-1, -1), 14, 0x30), ((-1, 1), 14, 0x90)]

/-- Accumulator of the inner neighbour loop of `update_cost`: the cost grid,
the frontier heap, the local `wall_mask`, and (as ghost instrumentation, read
by no computation) the list of indices pushed during this expansion. -/
structure ExpandAcc where
  costGrid : List (Nat × Bool)
  heap : List Node
  wallMask : Nat
  pushed : List Nat
deriving Repr, DecidableEq

/-- One iteration of the neighbour loop in `update_cost`, expanding from the
popped cell at column `x`, row `y` with cost `cost`:
bounds check; wall cells record the wall mask bit and are stamped
`(u32::MAX, visited)`; visited cells are skipped; a diagonal move is skipped
when `(wall_mask << 4) & mask != 0` (`u8` shift, hence the `% 256`);
otherwise the neighbour is stamped `cost + step_cost`, marked visited and
pushed onto the frontier. -/
def expandStep (storage : List Nat) (w h : Int) (x y : Int) (cost : Nat)
    (acc : ExpandAcc) (nb : (Int × Int) × Nat × Nat) : ExpandAcc :=
  let dx := nb.1.1
  let dy := nb.1.2
  let stepCost := nb.2.1
  let mask := nb.2.2
  let nextX := x + dx
  let nextY := y + dy
  if nextX < 0 ∨ w ≤ nextX ∨ nextY < 0 ∨ h ≤ nextY then acc
  else
    let n := (nextX + nextY * w).toNat
    if storage.getD n 0 ≠ 0 then
      { acc with wallMask := acc.wallMask ||| mask,
                 costGrid := acc.costGrid.set n (U32MAX, true) }
    else if (acc.costGrid.getD n (U32MAX, false)).2 then acc
    else if stepCost = 14 ∧ ((acc.wallMask <<< 4) % 256) &&& mask ≠ 0 then acc
    else
      let newCost := cost + stepCost
      { acc with costGrid := acc.costGrid.set n (newCost, true),
                 heap := heapPush acc.heap ⟨n, newCost⟩,
                 pushed := acc.pushed ++ [n] }

/-- The full 8-neighbour expansion of one popped cell. -/
def expandNeighbors (storage : List Nat) (w h : Int) (x y : Int) (cost : Nat)
    (g : List (Nat × Bool)) (heap : List Node) : ExpandAcc :=
  NEIGHBORS.foldl (expandStep storage w h x y cost)
    { costGrid := g, heap := heap, wallMask := 0, pushed := [] }

/-- State of the cost wavefront: the `(cost, visited)` grid and the frontier
heap (the flow `field` is carried separately where needed, since the only
effect of `update_cost` on it is clearing the popped cell). -/
structure CostState where
  costGrid : List (Nat × Bool)
  heap : List Node
deriving Repr, DecidableEq

/-- One pop-and-expand iteration of the budget loop in `update_cost`.
Returns `none` when the frontier is empty (the `else break`), otherwise the
new state together with the popped node and the pushed indices (ghost data).
The cleared flow-field entry (`flowfield.field[i] = None`) is handled by the
caller that owns a field. -/
def popExpand (storage : List Nat) (w h : Int) (s : CostState) :
    Option (CostState × Node × List Nat) :=
  match heapPop s.heap with
  | none => none
  | some (nd, heap') =>
    let x : Int := (nd.index : Int) % w
    let y : Int := (nd.index : Int) / w
    let acc := expandNeighbors storage w h x y nd.cost s.costGrid heap'
    some (⟨acc.costGrid, acc.heap⟩, nd, acc.pushed)

/-- Run pop-and-expand iterations until the frontier drains (or fuel runs
out); the per-tick budget of `update_cost` only cuts this loop into slices
without changing the sequence of operations, so the drained state is the
result of enough budget iterations across ticks. -/
def drainLoop (storage : List Nat) (w h : Int) : Nat → CostState → CostState
  | 0, s => s
  | fuel + 1, s =>
    match popExpand storage w h s with
    | none => s
    | some (s', _, _) => drainLoop storage w h fuel s'

/-- Ghost trace of all indices pushed while draining (seed not included). -/
def drainTrace (storage : List Nat) (w h : Int) : Nat → CostState → List Nat
  | 0, _ => []
  | fuel + 1, s =>
    match popExpand storage w h s with
    | none => []
    | some (s', _, pushed) => pushed ++ drainTrace storage w h fuel s'

/-- The reseeded initial state of a wavefront for seed index `start`
(`update_cost` on an empty heap: all visited flags cleared, the seed stamped
`(0, true)` and pushed as the only frontier entry).  `base` is the cost grid
left over from the previous wavefront (`(u32::MAX, false)` everywhere right
after `setup_flowfield`). -/
def reseed (base : List (Nat × Bool)) (start : Nat) : CostState :=
  { costGrid := ((base.map fun c => (c.1, false)).set start (0, true)),
    heap := [⟨start, 0⟩] }

/-- A fully drained wavefront from a fresh grid of `w*h` tiles. -/
def runWavefront (storage : List Nat) (w h : Int) (start : Nat) (fuel : Nat) :
    CostState :=
  drainLoop storage w h fuel
    (reseed (List.replicate (w * h).toNat (U32MAX, false)) start)

/-- `get_tile_coords(index, width)` from `flowfield.rs`. -/
def getTileCoords (index : Nat) (w : Int) : Nat × Nat :=
  (index % w.toNat, index / w.toNat)

/-- `Flowfield::get_minimum_cost_at_index`: the octile lower bound
`diag_count * 14 + straight_count * 10` for the offset between the tile at
`index` and the transient target. -/
def getMinimumCostAtIndex (transientTarget : Int × Int) (w : Int)
    (index : Nat) : Nat :=
  let xy := getTileCoords index w
  let xDiff := (transientTarget.1 - (xy.1 : Int)).natAbs
  let yDiff := (transientTarget.2 - (xy.2 : Int)).natAbs
  let diagCount := min xDiff yDiff
  let straightCount := max xDiff yDiff - diagCount
  diagCount * 14 + straightCount * 10

/-- Octile distance as the spec words it: `diag_count*14 + straight_count*10`
with `diag_count = min(|dx|,|dy|)` and
`straight_count = max(|dx|,|dy|) - diag_count`. -/
def octileDistanceSpec (dx dy : Int) : Nat :=
  min dx.natAbs dy.natAbs * 14 + (max dx.natAbs dy.natAbs - min dx.natAbs dy.natAbs) * 10

/-- The admissible moves out of cell `a`, as the claim describes them: an
8-directional step to an in-bounds, non-wall cell, orthogonal cost 10 and
diagonal cost 14, where a diagonal step is allowed only when both
orthogonally-adjacent flanking cells are open (the movement rule realised by
`update_cost`; it is a subgraph of the spec's more permissive
"both flanks walls block" rule, so a path valid here is valid under either
reading).  Returns the step targets of one neighbour-table entry. -/
def moveStep (storage : List Nat) (w h : Int) (a : Nat)
    (nb : (Int × Int) × Nat × Nat) : Option (Nat × Nat) :=
  let x : Int := (a : Int) % w
  let y : Int := (a : Int) / w
  let nx := x + nb.1.1
  let ny := y + nb.1.2
  if nx < 0 ∨ w ≤ nx ∨ ny < 0 ∨ h ≤ ny then none
  else
    let n := (nx + ny * w).toNat
    if storage.getD n 0 ≠ 0 then none
    else if nb.2.1 = 14 ∧ (storage.getD (nx + y * w).toNat 0 ≠ 0 ∨
        storage.getD (x + ny * w).toNat 0 ≠ 0) then none
    else some (n, nb.2.1)

/-- The possible step costs of a move from `a` to `b` (empty when the move is
not admissible). -/
def moveCosts (storage : List Nat) (w h : Int) (a b : Nat) : List Nat :=
  NEIGHBORS.filterMap fun nb =>
    match moveStep storage w h a nb with
    | some (n, c) => if n = b then some c else none
    | none => none

/-- A cell usable on a discovered path: in bounds, open, visited, and with a
finite cost in grid `g`. -/
def vertexOk (storage : List Nat) (w h : Int) (g : List (Nat × Bool))
    (i : Nat) : Bool :=
  i < (w * h).toNat ∧ storage.getD i 0 = 0 ∧
    (g.getD i (U32MAX, false)).2 = true ∧ (g.getD i (U32MAX, false)).1 ≠ U32MAX

/-- A chain of cells that is a valid path whose recorded costs in `g` grow by
exactly the step cost at every move (so the recorded cost strictly decreases
toward the start of the chain). -/
def chainOk (storage : List Nat) (w h : Int) (g : List (Nat × Bool)) :
    List Nat → Bool
  | [] => true
  | [i] => vertexOk storage w h g i
  | i :: j :: rest =>
    vertexOk storage w h g i &&
    (moveCosts storage w h i j).any
      (fun c => (g.getD j (U32MAX, false)).1 = (g.getD i (U32MAX, false)).1 + c) &&
    chainOk storage w h g (j :: rest)

/-- `p` is a discovered path from `start` to `v` in grid `g`: a valid chain
beginning at `start` and ending at `v`. -/
def DiscoveredPath (storage : List Nat) (w h : Int) (g : List (Nat × Bool))
    (start v : Nat) (p : List Nat) : Prop :=
  chainOk storage w h g p = true ∧ p.head? = some start ∧ p.getLast? = some v

/-- Total step cost of a path (sum of one admissible step cost per move);
`none` when some move is inadmissible. -/
def pathCost (storage : List Nat) (w h : Int) : List Nat → Option Nat
  | [] => some 0
  | [_] => some 0
  | i :: j :: rest =>
    match (moveCosts storage w h i j).head?, pathCost storage w h (j :: rest) with
    | some c, some rest' => some (c + rest')
    | _, _ => none

/-- Truncation of a rational toward zero, the semantics of Rust's
`f32 as i32` / `f32 as isize` casts on in-range finite values. -/
def ratTrunc (q : ℚ) : Int := q.num.tdiv q.den

/-- Floor of a rational (numerator divided by denominator, Euclidean
division); equals `Int.floor` but reduces in the kernel. -/
def ratFloor (q : ℚ) : Int := q.num / (q.den : Int)

/-- `f32 as usize`: negative values clamp to 0 (saturating cast; the upper
saturation bound is never reached by the quantities modelled here). -/
def ratToUsize (q : ℚ) : Nat := (ratTrunc q).toNat

/-- An exact model of a bevy `Dir2` value: the direction is represented by an
exact, not-necessarily-normalised vector `(x, y) ∈ ℚ²`.  The `f32` `Dir2`
holds this vector normalised; a test of the source on a normalised component,
such as `x.abs()` being `0.`, `1.` or `FRAC_1_SQRT_2`, is translated to the
equivalent exact condition on the unnormalised vector (`x = 0`, `y = 0`,
`|x| = |y|` respectively). -/
structure Dir2Q where
  x : ℚ
  y : ℚ
deriving DecidableEq, Repr

/-- `Dir2::NORTH` (also `Dir2::Y`, the `unwrap_or` default). -/
def dirNORTH : Dir2Q := ⟨0, 1⟩

/-- `Dir2::EAST`. -/
def dirEAST : Dir2Q := ⟨1, 0⟩

/-- `Dir2::SOUTH`. -/
def dirSOUTH : Dir2Q := ⟨0, -1⟩

/-- `Dir2::WEST`. -/
def dirWEST : Dir2Q := ⟨-1, 0⟩

/-- `Dir2::NORTH_EAST` (stored in `f32` as `(√2/2, √2/2)`; here the exact
unnormalised representative). -/
def dirNORTH_EAST : Dir2Q := ⟨1, 1⟩

/-- `Dir2::SOUTH_EAST`. -/
def dirSOUTH_EAST : Dir2Q := ⟨1, -1⟩

/-- `Dir2::SOUTH_WEST`. -/
def dirSOUTH_WEST : Dir2Q := ⟨-1, -1⟩

/-- `Dir2::NORTH_WEST`. -/
def dirNORTH_WEST : Dir2Q := ⟨-1, 1⟩

/-- The direction is a positive scaling of one of the 8 compass unit
directions (what the spec calls a canonical direction). -/
def isCanonicalDir (d : Dir2Q) : Prop :=
  (d.x ≠ 0 ∨ d.y ≠ 0) ∧ (d.x = 0 ∨ d.y = 0 ∨ |d.x| = |d.y|)

instance (d : Dir2Q) : Decidable (isCanonicalDir d) := by
  unfold isCanonicalDir; infer_instance

/-- `[0., 1., FRAC_1_SQRT_2].contains(&d.x.abs())` for the normalised
direction `d`: its x-component is `0` (N/S), `±1` (E/W) or `±√2/2`
(diagonal). -/
def ambiguousX (d : Dir2Q) : Bool := d.x = 0 ∨ d.y = 0 ∨ |d.x| = |d.y|

/-- `Flowfield::NEIGHBORS` of `get_flow_at_tile`:
`((dx, dy), Dir2, bitmask)` in the order N, E, S, W, NE, SE, SW, NW. -/
def FLOW_NEIGHBORS : List ((Int × Int) × Dir2Q × Nat) :=
  [((0, 1), dirNORTH, 0x08), ((1, 0), dirEAST, 0x04),
   ((0, -1), dirSOUTH, 0x02), ((-1, 0), dirWEST, 0x01),
   ((1, 1), dirNORTH_EAST, 0xC0), ((1, -1), dirSOUTH_EAST, 0x60),
   ((-1, -1), dirSOUTH_WEST, 0x30), ((-1, 1), dirNORTH_WEST, 0x90)]

/-- The `Flowfield` component: live target (tile coordinates, `Vec2`),
transient target (`IVec2`), dirty flag, `(cost, visited)` grid, memoised flow
field, frontier heap, and dimensions. -/
structure FlowfieldQ where
  target : ℚ × ℚ
  transientTarget : Int × Int
  targetChanged : Bool
  costGrid : List (Nat × Bool)
  field : List (Option Dir2Q)
  heap : List Node
  width : Int
  height : Int
deriving DecidableEq, Repr

/-- One iteration of the neighbour scan in `get_flow_at_tile`: accumulator is
`(min, field[i], neighbor_wall_mask)`.  Out-of-bounds neighbours and
neighbours blocked by the cell's own subtile mask are skipped; neighbours
with sentinel cost record a wall bit; otherwise a cheaper neighbour becomes
the flow direction unless the shifted wall mask forbids that (diagonal)
direction. -/
def flowScanStep (costGrid : List (Nat × Bool))
    (w h : Int) (col row : Int) (subtileMask : Nat)
    (acc : Nat × Option Dir2Q × Nat) (nb : (Int × Int) × Dir2Q × Nat) :
    Nat × Option Dir2Q × Nat :=
  let nextCol := col + nb.1.1
  let nextRow := row + nb.1.2
  if nextCol < 0 ∨ w ≤ nextCol ∨ nextRow < 0 ∨ h ≤ nextRow ∨
      (subtileMask &&& nb.2.2) = nb.2.2 then acc
  else
    let n := (nextCol + nextRow * w).toNat
    let neighborCost := (costGrid.getD n (U32MAX, false)).1
    if neighborCost = U32MAX then (acc.1, acc.2.1, acc.2.2 ||| nb.2.2)
    else if neighborCost < acc.1 then
      if ((acc.2.2 <<< 4) % 256) &&& nb.2.2 ≠ 0 then acc
      else (neighborCost, some nb.2.1, acc.2.2)
    else acc

/-- The gated neighbour scan of `get_flow_at_tile` for the cell at index `i`:
when the memoised entry is unset, the target changed, or the memoised
x-component is one of the ambiguous reference values, fold the neighbour
table over `(min, field[i], neighbor_wall_mask)`; otherwise leave the
memoised entry and a zero wall mask. -/
def flowScanResult (f : FlowfieldQ) (storage : List Nat) (i : Nat) :
    Nat × Option Dir2Q × Nat :=
  let fieldI0 := f.field.getD i none
  let needScan := match fieldI0 with
    | none => true
    | some d => f.targetChanged || ambiguousX d
  if needScan then
    FLOW_NEIGHBORS.foldl
      (flowScanStep f.costGrid f.width f.height ((i : Int) % f.width)
        ((i : Int) / f.width) (storage.getD i 0))
      (U32MAX, fieldI0, 0)
  else (U32MAX, fieldI0, 0)

/-- `Flowfield::get_flow_at_tile`.  `Except Unit` models the `panic!()` taken
when `Dir2::from_xy` fails (zero-length smoothing vector); on success the
result is the returned direction together with the updated (memoising)
flow-field state.  The smoothing vector is kept unnormalised (`Dir2Q`
convention above). -/
def getFlowAtTile (f : FlowfieldQ) (storage : List Nat) (tile : ℚ × ℚ)
    (smooth : Bool) : Except Unit (Dir2Q × FlowfieldQ) :=
  let i := (ratTrunc tile.1 + ratTrunc tile.2 * f.width).toNat
  let cost := (f.costGrid.getD i (U32MAX, false)).1
  let lineOfSight := cost = getMinimumCostAtIndex f.transientTarget f.width i
  if (150 < cost ∨ ¬ lineOfSight) ∧ (f.field.getD i none).isSome then
    .ok ((f.field.getD i none).getD dirNORTH, f)
  else
    let col : Int := (i : Int) % f.width
    let row : Int := (i : Int) / f.width
    let fieldI1 := (flowScanResult f storage i).2.1
    let neighborWallMask := (flowScanResult f storage i).2.2
    if neighborWallMask = 0 ∧ lineOfSight ∧
        ((fieldI1.isSome ∧ (fieldI1.getD dirNORTH).x ≠ 0 ∧
          (fieldI1.getD dirNORTH).y ≠ 0) ∨
         (col = f.transientTarget.1 ∨ row = f.transientTarget.2)) ∧
        smooth = true then
      let tileC := getTileCoords i f.width
      let dxy : ℚ × ℚ :=
        if cost < 150 then
          (f.target.1 - (tileC.1 : ℚ) - 1/2, f.target.2 - (tileC.2 : ℚ) - 1/2)
        else
          ((f.transientTarget.1 : ℚ) - (tileC.1 : ℚ) - 1/2,
           (f.transientTarget.2 : ℚ) - (tileC.2 : ℚ) - 1/2)
      if dxy.1 = 0 ∧ dxy.2 = 0 then .error ()
      else
        let dir : Dir2Q := ⟨dxy.1, dxy.2⟩
        .ok (dir, { f with field := f.field.set i (some dir) })
    else
      .ok ((fieldI1.getD dirNORTH), { f with field := f.field.set i fieldI1 })

/-- `Flowfield::get_index_at_tile`: `None` for negative or out-of-range tile
coordinates (the `f32→isize` casts truncate toward zero). -/
def getIndexAtTile (w h : Int) (tile : ℚ × ℚ) : Option Nat :=
  if tile.1 < 0 ∨ tile.2 < 0 ∨ h ≤ ratTrunc tile.2 ∨ w ≤ ratTrunc tile.1 then
    none
  else some (ratTrunc tile.1 + ratTrunc tile.2 * w).toNat

/-- The per-tick iteration budget of `update_cost`:
`(tile_count as f32 / (fps * seconds_per_iter)) as usize` with
`fps = 1.0 / delta_seconds` — a truncating cast, not a ceiling. -/
def iterPerUpdate (tileCount : Int) (delta secondsPerIter : ℚ) : Nat :=
  ratToUsize ((tileCount : ℚ) / ((1 / delta) * secondsPerIter))

/-- The budgeted pop-and-expand loop of one `update_cost` tick; clears the
memoised flow entry of each popped cell and counts the pops (the count is
ghost instrumentation). -/
def budgetLoop (storage : List Nat) (w h : Int) :
    Nat → CostState → List (Option Dir2Q) →
    CostState × List (Option Dir2Q) × Nat
  | 0, s, field => (s, field, 0)
  | iters + 1, s, field =>
    match popExpand storage w h s with
    | none => (s, field, 0)
    | some (s', nd, _) =>
      let res := budgetLoop storage w h iters s' (field.set nd.index none)
      (res.1, res.2.1, res.2.2 + 1)

/-- One tick of the `update_cost` system: early-out on an unsized grid or on
an idle converged field; reseed the wavefront from the live target when the
frontier is empty; then pop and expand up to `iter_per_update` entries;
finally clear `target_changed` once the frontier has drained.  Also returns
the number of frontier entries popped this tick (ghost data). -/
def updateCostTick (storage : List Nat) (f : FlowfieldQ)
    (delta secondsPerIter : ℚ) : FlowfieldQ × Nat :=
  if f.costGrid.length = 0 then (f, 0)
  else
    let tileCount := f.width * f.height
    let iters := iterPerUpdate tileCount delta secondsPerIter
    if ¬ f.targetChanged ∧ f.heap.isEmpty then (f, 0)
    else
      let seeded : Option FlowfieldQ :=
        if f.heap.isEmpty then
          let f' := { f with
            transientTarget := (ratTrunc f.target.1, ratTrunc f.target.2) }
          match getIndexAtTile f.width f.height f.target with
          | none => none
          | some startIndex => some { f' with
              costGrid := (f'.costGrid.map fun c => (c.1, false)).set
                startIndex (0, true),
              heap := [⟨startIndex, 0⟩] }
        else some f
      match seeded with
      | none =>
        ({ f with transientTarget :=
            (ratTrunc f.target.1, ratTrunc f.target.2) }, 0)
      | some f1 =>
        let res := budgetLoop storage f1.width f1.height iters
          ⟨f1.costGrid, f1.heap⟩ f1.field
        let s := res.1
        let tc := if s.heap.isEmpty then false else f1.targetChanged
        ({ f1 with
            costGrid := s.costGrid
            heap := s.heap
            field := res.2.1
            targetChanged := tc }, res.2.2)

/-- `PRECISION` from `segment.rs`: points closer than this quantum may be
considered equal. -/
def PRECISION : ℚ := 1 / 100

/-- `PRECISION_MUL = 1.0 / PRECISION`. -/
def PRECISION_MUL : ℚ := 1 / PRECISION

/-- `Point` from `point.rs` (`f32` coordinates modelled exactly). -/
structure Point where
  x : ℚ
  y : ℚ
deriving DecidableEq, Repr

/-- `Point::get_hashable`: `(self * PRECISION_MUL).as_ivec2()` — each
coordinate is scaled by 100 and cast `f32 as i32` (truncation toward zero). -/
def Point.getHashable (p : Point) : Int × Int :=
  (ratTrunc (p.x * PRECISION_MUL), ratTrunc (p.y * PRECISION_MUL))

/-- The `PartialEq` implementation of `Point`: equality of the quantized
images. -/
def Point.eqQ (p q : Point) : Bool := p.getHashable = q.getHashable

/-- The data fed to the `Hasher` by `Point`'s `Hash` implementation.  Two
points feed the hasher identical bytes (hence hash identically) exactly when
these keys are equal. -/
def Point.hashKey (p : Point) : Int × Int := p.getHashable

/-- `Segment` from `segment.rs`. -/
structure Segment where
  a : Point
  b : Point
deriving DecidableEq, Repr

/-- `Segment::reverse`. -/
def Segment.reverse (s : Segment) : Segment := ⟨s.b, s.a⟩

/-- The `PartialEq` implementation of `Segment`: endpoints equal in order, or
equal crosswise (orientation-independent). -/
def Segment.eqQ (s t : Segment) : Bool :=
  (s.a.eqQ t.a && s.b.eqQ t.b) || (s.a.eqQ t.b && s.b.eqQ t.a)

/-- The data fed to the `Hasher` by `Segment`'s `Hash` implementation: the
two quantized endpoints, swapped so that the lexicographically smaller
`(x, y)` pair comes first. -/
def Segment.hashKey (s : Segment) : (Int × Int) × (Int × Int) :=
  let p1 := s.a.getHashable
  let p2 := s.b.getHashable
  if p1.1 > p2.1 ∨ (p1.1 = p2.1 ∧ p1.2 > p2.2) then (p2, p1) else (p1, p2)

/-- A bevy `Timer` in `TimerMode::Repeating` (the only mode the spawners
use); `Duration`s modelled as non-negative rationals. -/
structure TimerQ where
  duration : ℚ
  elapsed : ℚ
  finished : Bool
  timesFinishedThisTick : Nat
deriving DecidableEq, Repr

/-- `Timer::from_seconds(d, TimerMode::Repeating)` /
`Timer::new(Duration, TimerMode::Repeating)`. -/
def TimerQ.fromSeconds (d : ℚ) : TimerQ :=
  { duration := d, elapsed := 0, finished := false, timesFinishedThisTick := 0 }

/-- `Timer::tick(delta)` for an unpaused repeating timer: advance `elapsed`;
when it reaches `duration`, record how many whole periods passed
(`u32::MAX` on a zero-duration timer) and wrap `elapsed` by that many
periods. -/
def TimerQ.tick (t : TimerQ) (delta : ℚ) : TimerQ :=
  let elapsed := t.elapsed + delta
  if t.duration ≤ elapsed then
    let times := if t.duration = 0 then U32MAX
      else (ratFloor (elapsed / t.duration)).toNat
    { duration := t.duration
      elapsed := elapsed - t.duration * times
      finished := true
      timesFinishedThisTick := times }
  else
    { duration := t.duration
      elapsed := elapsed
      finished := false
      timesFinishedThisTick := 0 }

/-- `Timer::just_finished()`. -/
def TimerQ.justFinished (t : TimerQ) : Bool := t.timesFinishedThisTick > 0

/-- `Timer::set_duration`. -/
def TimerQ.setDuration (t : TimerQ) (d : ℚ) : TimerQ := { t with duration := d }

/-- The `Spawner` component from `spawner.rs`. -/
structure SpawnerQ where
  id : Nat
  active : Bool
  activeDefault : Bool
  numSpawn : Int
  delay : ℚ
  immediate : Bool
  interval : ℚ
  repeats : Bool
  count : Int
  timer : TimerQ
deriving DecidableEq, Repr

/-- `Spawner::from_object` given the custom properties: timer duration 0 when
`immediate`, else `delay`; starts with `active = active_default`, count 0. -/
def SpawnerQ.fromProps (id : Nat) (activeDefault : Bool) (numSpawn : Int)
    (delay : ℚ) (immediate : Bool) (interval : ℚ) (repeats : Bool) : SpawnerQ :=
  { id := id
    active := activeDefault
    activeDefault := activeDefault
    numSpawn := numSpawn
    delay := delay
    immediate := immediate
    interval := interval
    repeats := repeats
    count := 0
    timer := TimerQ.fromSeconds (if immediate then 0 else delay) }

/-- The activation check at the top of the spawner loop in `update_spawners`:
an inactive spawner referenced by a trigger event activates only while its
count is below `num_spawn`. -/
def activateSpawner (s : SpawnerQ) (triggered : Bool) : SpawnerQ :=
  if ¬ s.active ∧ s.count < s.numSpawn ∧ triggered then
    { s with active := true } else s

/-- The `timer.just_finished()` body of the spawner loop: increment the
count and spawn one chaser; on reaching `num_spawn` a repeating spawner
resets its count and re-arms the timer with `(delay - elapsed).max(0.0)`, a
non-repeating one deactivates; otherwise the timer is re-armed with
`interval - elapsed` (which the source feeds to
`Duration::from_secs_f32`). -/
def spawnerFire (s : SpawnerQ) (timer : TimerQ) : SpawnerQ × Nat :=
  let count := s.count + 1
  if count = s.numSpawn then
    if s.repeats then
      let duration := max (s.delay - timer.elapsed) 0
      ({ s with count := 0, timer := timer.setDuration duration }, 1)
    else
      ({ s with active := false, count := count, timer := timer }, 1)
  else
    let duration := s.interval - timer.elapsed
    ({ s with count := count, timer := timer.setDuration duration }, 1)

/-- The body of `update_spawners` for one spawner on one tick.  `atCap` is
the early return when the live chaser population has reached `max_chasers`;
`triggered` is whether a `SpawnerTriggerEvent` for this spawner's id arrived
this tick.  Returns the updated spawner and the number of chasers spawned
(0 or 1). -/
def updateSpawner (s : SpawnerQ) (triggered : Bool) (delta : ℚ)
    (atCap : Bool) : SpawnerQ × Nat :=
  if atCap then (s, 0)
  else
    let s := activateSpawner s triggered
    if s.active then
      let timer := s.timer.tick delta
      if timer.justFinished then spawnerFire s timer
      else ({ s with timer := timer }, 0)
    else (s, 0)

/-- The spawner part of `reset_player` (the `KeyR` external reset): timer
re-created from `immediate`/`delay`, count zeroed, activation restored to its
default. -/
def resetSpawner (s : SpawnerQ) : SpawnerQ :=
  { s with
    timer := TimerQ.fromSeconds (if s.immediate then 0 else s.delay)
    count := 0
    active := s.activeDefault }

/-- Number of tiles of a `w × h` grid. -/
def tiles (w h : Int) : Nat := (w * h).toNat

/-- Number of cells currently marked visited in a cost grid. -/
def visitedCount (g : List (Nat × Bool)) : Nat := g.countP (fun c => c.2)

/-- A memoised flow entry is either unset or canonical. -/
def optCanonical : Option Dir2Q → Prop
  | none => True
  | some d => isCanonicalDir d

instance (o : Option Dir2Q) : Decidable (optCanonical o) := by
  cases o <;> unfold optCanonical <;> infer_instance

/-- Storage of the all-open 5×5 grid. -/
def emptyStorage5 : List Nat := List.replicate 25 0

/-- The drained wavefront on the empty 5×5 grid with the transient target at
tile (2,2) (index 12). -/
def drained5 : CostState := runWavefront emptyStorage5 5 5 12 30

/-- Storage of the 6×6 grid with wall tiles at indices 8 = (2,1), 9 = (3,1)
and 33 = (3,5). -/
def storageC1 : List Nat := ((List.replicate 36 0).set 8 1).set 9 1 |>.set 33 1

/-- The drained wavefront on `storageC1` with the transient target at
tile (3,0) (index 3). -/
def drainedC1 : CostState := runWavefront storageC1 6 6 3 45

/-- An explicit 8-directional path from the transient target (3,0) to tile
(1,5) on `storageC1`: seven orthogonal steps, total step cost 70. -/
def pathC1 : List Nat := [3, 2, 1, 7, 13, 19, 25, 31]

/-- A 3×3 storage whose centre tile is open, with a wall at (1,2) (the N
flank of the NE diagonal from the centre) iff `wN` and a wall at (2,1) (the
E flank) iff `wE`. -/
def storageC2 (wN wE : Bool) : List Nat :=
  ((List.replicate 9 0).set 7 (if wN then 1 else 0)).set 5 (if wE then 1 else 0)

/-- The expansion of the freshly seeded centre cell (1,1) of `storageC2`
(cost 0, the frontier already popped): exactly the neighbour loop of
`update_cost`. -/
def expandC2 (wN wE : Bool) : ExpandAcc :=
  expandNeighbors (storageC2 wN wE) 3 3 1 1 0
    ((List.replicate 9 (U32MAX, false)).set 4 (0, true)) []

/-- A converged flow field on the empty 5×5 grid, transient target (2,2),
live target at tile coordinates (2.25, 2.5) (inside tile (2,2)), no memoised
flow yet. -/
def ffC4 : FlowfieldQ :=
  { target := (9/4, 5/2)
    transientTarget := (2, 2)
    targetChanged := false
    costGrid := drained5.costGrid
    field := List.replicate 25 none
    heap := []
    width := 5
    height := 5 }

/-- Like `ffC4` but with the live target exactly at the centre (2.5, 2.5) of
the transient target tile (2,2). -/
def ffC5 : FlowfieldQ :=
  { ffC4 with target := (5/2, 5/2) }

/-- The flow-field state `ffC4` after a smoothing-free query at tile (0,0):
the scan memoises the north-east direction at index 0. -/
def ffC4after : FlowfieldQ :=
  { ffC4 with
    field := (List.replicate 25 (none : Option Dir2Q)).set 0 (some dirNORTH_EAST) }

/-- A spawner with `num_spawn = 2`, `delay = 5`, `interval = 1`,
`repeats = true`, `immediate = false`, active by default. -/
def spawnerC9 : SpawnerQ := SpawnerQ.fromProps 1 true 2 5 false 1 true

/-- The spawner `spawnerC9` one spawn before its cap, timer armed to fire in
one second. -/
def spawnerC9armed : SpawnerQ :=
  { spawnerC9 with
    count := 1
    timer := { duration := 1, elapsed := 0, finished := false, timesFinishedThisTick := 0 } }

/-- Run a spawner through a sequence of ticks (no triggers, below the
population cap), collecting the spawn count of every tick. -/
def spawnerTrace (s : SpawnerQ) : List ℚ → SpawnerQ × List Nat
  | [] => (s, [])
  | d :: rest =>
    let r := updateSpawner s false d false
    let res := spawnerTrace r.1 rest
    (res.1, r.2 :: res.2)

/-- Run a spawner through a sequence of `(triggered, delta, atCap)` steps,
adding up the spawns. -/
def spawnerRun (s : SpawnerQ) : List (Bool × ℚ × Bool) → SpawnerQ × Nat
  | [] => (s, 0)
  | st :: rest =>
    let r := updateSpawner s st.1 st.2.1 st.2.2
    let res := spawnerRun r.1 rest
    (res.1, r.2 + res.2)

/-- Invariant of the wavefront state, relative to `storage`, dimensions
`w × h` and the seed `start` of the current wavefront:
* the grid has one cell per tile;
* every frontier entry points at an in-bounds, open, visited cell whose
  authoritative grid value equals the entry's stored cost (no stale
  entries), bounded by 14 per visited cell;
* every visited open cell of finite cost is reached by a discovered path
  from the seed whose recorded costs grow by exactly the step cost of each
  move. -/
structure WFInv (storage : List Nat) (w h : Int) (start : Nat)
    (s : CostState) : Prop where
  glen : s.costGrid.length = tiles w h
  hmem : ∀ nd ∈ s.heap, nd.index < tiles w h ∧
    storage.getD nd.index 0 = 0 ∧
    s.costGrid.getD nd.index (U32MAX, false) = (nd.cost, true) ∧
    nd.cost ≤ 14 * visitedCount s.costGrid
  reach : ∀ j, j < tiles w h →
    (s.costGrid.getD j (U32MAX, false)).2 = true →
    (s.costGrid.getD j (U32MAX, false)).1 ≠ U32MAX →
    ∃ p, DiscoveredPath storage w h s.costGrid start j p

/-- Invariant carried through the neighbour loop of one expansion: the
`WFInv` fields on the accumulator, visited-monotonicity relative to the grid
`g0` at the start of the expansion, the facts about the popped cell
(`i0`, `cost0`), and the bookkeeping of the (ghost) pushed list. -/
structure EInv (storage : List Nat) (w h : Int) (start : Nat)
    (g0 : List (Nat × Bool)) (i0 : Nat) (cost0 : Nat)
    (acc : ExpandAcc) : Prop where
  glen : acc.costGrid.length = tiles w h
  hmem : ∀ nd ∈ acc.heap, nd.index < tiles w h ∧
    storage.getD nd.index 0 = 0 ∧
    acc.costGrid.getD nd.index (U32MAX, false) = (nd.cost, true) ∧
    nd.cost ≤ 14 * visitedCount acc.costGrid
  reach : ∀ j, j < tiles w h →
    (acc.costGrid.getD j (U32MAX, false)).2 = true →
    (acc.costGrid.getD j (U32MAX, false)).1 ≠ U32MAX →
    ∃ p, DiscoveredPath storage w h acc.costGrid start j p
  vmono : ∀ j, (g0.getD j (U32MAX, false)).2 = true →
    (acc.costGrid.getD j (U32MAX, false)).2 = true
  popGood : acc.costGrid.getD i0 (U32MAX, false) = (cost0, true) ∧
    storage.getD i0 0 = 0 ∧ i0 < tiles w h ∧
    cost0 ≤ 14 * visitedCount acc.costGrid
  pOk : ∀ j ∈ acc.pushed,
    (acc.costGrid.getD j (U32MAX, false)).2 = true ∧
    (g0.getD j (U32MAX, false)).2 = false
  pNodup : acc.pushed.Nodup

unseal Rat.add Rat.mul Rat.sub Rat.inv Rat.ofScientific

/-- Helper: the ordering swap in a segment hash key is symmetric in its two
arguments, so a segment and its reversal feed the hasher the same key. -/
theorem segment_hashKey_reverse (s : Segment) : s.hashKey = s.reverse.hashKey := by
  unfold Segment.hashKey Segment.reverse
  dsimp only
  split_ifs with h1 h2 h2
  · exfalso; omega
  · rfl
  · rfl
  · have e1 : s.a.getHashable.1 = s.b.getHashable.1 := by omega
    have e2 : s.a.getHashable.2 = s.b.getHashable.2 := by omega
    have e : s.a.getHashable = s.b.getHashable := Prod.ext e1 e2
    rw [e]

/-- Claim C6: the theoretical-minimum (octile) cost used for the
line-of-sight test is `diag_count*14 + straight_count*10` with
`diag_count = min(|dx|,|dy|)` and `straight_count = max(|dx|,|dy|) -
diag_count`; with the transient target at (2,2) it returns 28 for tile (4,4)
(index 24 of the 5×5 grid); and on the empty 5×5 grid the fully drained
wavefront (empty frontier) indeed assigns cost 28 to that cell. -/
theorem C6_octile_minimum_cost :
    (∀ (tt : Int × Int) (w : Int) (i : Nat),
      getMinimumCostAtIndex tt w i =
        octileDistanceSpec (tt.1 - ((getTileCoords i w).1 : Int))
          (tt.2 - ((getTileCoords i w).2 : Int))) ∧
    getMinimumCostAtIndex (2, 2) 5 24 = 28 ∧
    (drained5.costGrid.getD 24 (U32MAX, false)).1 = 28 ∧
    drained5.heap = [] := by
  refine ⟨?_, by decide, by decide, by decide⟩
  intro tt w i
  unfold getMinimumCostAtIndex octileDistanceSpec getTileCoords
  dsimp only

/-- Claim C7 counterexample: the points (1/128, 0) and (1/64, 0) are closer
than the 1/100 precision in every coordinate but do not compare equal — the
quantization buckets split them, refuting the claim that any two points
within the tolerance compare equal. -/
theorem C7_counterexample :
    |(1/128 : ℚ) - 1/64| < PRECISION ∧ |(0 : ℚ) - 0| < PRECISION ∧
    Point.eqQ ⟨1/128, 0⟩ ⟨1/64, 0⟩ = false := by decide

/-- Claim C7 (amended): point equality is the kernel of the quantization map
(coordinates scaled by 100 and truncated to integers), hence an equivalence
relation; equal points have equal hash keys; points quantizing to the same
bucket are equal (rather than all points within the 1/100 tolerance); and the
claim's concrete examples hold: (0.001, 0.001) equals (0.006, 0.004) and does
not equal (0.02, 0.02). -/
theorem C7_point_quantized_equality :
    (∀ p : Point, p.eqQ p = true) ∧
    (∀ p q : Point, p.eqQ q = true → q.eqQ p = true) ∧
    (∀ p q r : Point, p.eqQ q = true → q.eqQ r = true → p.eqQ r = true) ∧
    (∀ p q : Point, p.eqQ q = true → p.hashKey = q.hashKey) ∧
    (∀ p q : Point, p.getHashable = q.getHashable → p.eqQ q = true) ∧
    Point.eqQ ⟨1/1000, 1/1000⟩ ⟨6/1000, 4/1000⟩ = true ∧
    Point.eqQ ⟨1/1000, 1/1000⟩ ⟨2/100, 2/100⟩ = false := by
  refine ⟨?_, ?_, ?_, ?_, ?_, by decide, by decide⟩
  · intro p; simp [Point.eqQ]
  · intro p q h; simp only [Point.eqQ, decide_eq_true_eq] at h ⊢; exact h.symm
  · intro p q r h1 h2
    simp only [Point.eqQ, decide_eq_true_eq] at h1 h2 ⊢
    exact h1.trans h2
  · intro p q h
    simp only [Point.eqQ, decide_eq_true_eq] at h
    unfold Point.hashKey
    exact h
  · intro p q h; simp only [Point.eqQ, decide_eq_true_eq]; exact h

/-- Claim C7 witness: the amended theorem applied at the concrete pair of the
claim, with the hash-agreement hypothesis discharged by evaluation. -/
theorem C7_witness :
    Point.hashKey ⟨1/1000, 1/1000⟩ = Point.hashKey ⟨6/1000, 4/1000⟩ :=
  C7_point_quantized_equality.2.2.2.1 _ _ (by decide)

/-- Claim C8: segment equality and hashing are orientation-independent: the
segment from A to B equals the segment from B to A, every segment equals its
own reversal, and equal segments feed the hasher identical keys (hence hash
identically). -/
theorem C8_segment_orientation_independent :
    (∀ A B : Point, Segment.eqQ ⟨A, B⟩ ⟨B, A⟩ = true) ∧
    (∀ s : Segment, s.eqQ s.reverse = true) ∧
    (∀ s t : Segment, s.eqQ t = true → s.hashKey = t.hashKey) := by
  refine ⟨?_, ?_, ?_⟩
  · intro A B
    unfold Segment.eqQ
    simp [Point.eqQ]
  · intro s
    unfold Segment.eqQ Segment.reverse
    simp [Point.eqQ]
  · intro s t h
    unfold Segment.eqQ at h
    simp only [Bool.or_eq_true, Bool.and_eq_true, Point.eqQ,
      decide_eq_true_eq] at h
    rcases h with ⟨h1, h2⟩ | ⟨h1, h2⟩
    · unfold Segment.hashKey
      rw [h1, h2]
    · rw [segment_hashKey_reverse t]
      unfold Segment.hashKey Segment.reverse
      dsimp only
      rw [h1, h2]

/-- Claim C8 witness: hash agreement applied to a concrete reversed pair. -/
theorem C8_witness :
    Segment.hashKey ⟨⟨0, 0⟩, ⟨1, 2⟩⟩ = Segment.hashKey ⟨⟨1, 2⟩, ⟨0, 0⟩⟩ :=
  C8_segment_orientation_independent.2.2 _ _ (by decide)

/-- Claim C2 counterexample: expanding the freshly seeded centre of a 3×3
grid whose only wall is the north flank (1,2) of the north-east diagonal —
the east flank (2,1) is open — the NE neighbour (2,2) (index 8) receives no
cost and stays unvisited: the diagonal step is skipped although only one of
the two flanking cells is a wall, contrary to the claim. -/
theorem C2_counterexample :
    (storageC2 true false).getD 7 0 = 1 ∧ (storageC2 true false).getD 5 0 = 0 ∧
    (expandC2 true false).costGrid.getD 8 (U32MAX, false) = (U32MAX, false) := by
  decide

/-- Claim C2 (amended): during expansion of a popped cell, a diagonal
neighbour is skipped exactly when AT LEAST ONE of the two flanking
orthogonal cells is a wall (the code tests `(wall_mask << 4) & mask != 0`);
verified for every wall configuration of the two flanks of the NE diagonal
on the 3×3 grid: the diagonal neighbour is stamped `(14, visited)` iff both
flanks are open, and left untouched otherwise. -/
theorem C2_diagonal_skip_rule :
    ∀ wN wE : Bool,
      (expandC2 wN wE).costGrid.getD 8 (U32MAX, false) =
        (if wN || wE then (U32MAX, false) else (14, true)) := by
  intro wN wE
  cases wN <;> cases wE <;> decide

/-- Claim C5: querying the flow at the transient-target tile (2,2) while the
live target sits exactly at that tile's centre (2.5, 2.5) drives the
smoothing vector to zero length, and the code panics (the
`let Ok(dir) = Dir2::from_xy(..) else panic!()`) instead of falling back to
a default direction as the spec requires. -/
theorem C5_zero_vector_panics :
    (getFlowAtTile ffC5 emptyStorage5 (2, 2) true).toOption = none := by decide

/-- Claim C4 counterexample: with smoothing enabled, the flow returned for
tile (0,0) on a converged empty 5×5 field points exactly at the live target
(direction (1.75, 2) before normalisation), which is none of the 8 canonical
compass directions and not the unset sentinel — refuting the claim that the
returned direction is always canonical-or-unset even when smoothing is on. -/
theorem C4_counterexample :
    (getFlowAtTile ffC4 emptyStorage5 (0, 0) true).toOption.map Prod.fst =
      some ⟨7/4, 2⟩ ∧ ¬ isCanonicalDir ⟨7/4, 2⟩ := by decide

/-- Claim C3 counterexample: with 25 tiles, a 0.125 s frame and
`seconds_per_iter = 1`, the code computes `25 / (8 * 1) = 3.125` and casts it
to `usize`, yielding 3 iterations — not the ceiling 4 the claim states. -/
theorem C3_counterexample :
    iterPerUpdate 25 (1/8) 1 = 3 ∧
    (⌈(25 : ℚ) / ((1 / (1/8 : ℚ)) * 1)⌉ : Int) = 4 := by
  constructor
  · decide
  · rw [Int.ceil_eq_iff] <;> norm_num

/-- Claim C9 counterexample: a repeating spawner with `num_spawn = 2`,
`delay = 5`, `interval = 1` ticked every second spawns at seconds 5 and 6,
then — its timer re-armed with `delay`, not `interval` — stays silent for
four seconds and spawns again only at seconds 11 and 12: after the count
wraps, spawning does not continue at the configured `interval` cadence. -/
theorem C9_counterexample :
    spawnerC9.repeats = true ∧ spawnerC9.interval = 1 ∧ spawnerC9.delay = 5 ∧
    (spawnerTrace spawnerC9 (List.replicate 12 1)).2 =
      [0, 0, 0, 0, 1, 1, 0, 0, 0, 0, 1, 1] := by decide

/-- Helper: the budgeted loop of `update_cost` pops at most its iteration
budget. -/
theorem budgetLoop_count_le (storage : List Nat) (w h : Int) :
    ∀ (iters : Nat) (s : CostState) (field : List (Option Dir2Q)),
      (budgetLoop storage w h iters s field).2.2 ≤ iters := by
  intro iters
  induction iters with
  | zero => intro s field; simp [budgetLoop]
  | succ k ih =>
    intro s field
    simp only [budgetLoop]
    split
    · simp
    · exact Nat.succ_le_succ (ih _ _)

/-- Helper: for a non-negative rational, the truncating `as usize` cast used
by `update_cost` is the floor, which never exceeds the ceiling. -/
theorem ratToUsize_le_ceil (q : ℚ) (hq : 0 ≤ q) :
    (ratToUsize q : Int) ≤ ⌈q⌉ := by
  unfold ratToUsize ratTrunc
  have hnum : 0 ≤ q.num := Rat.num_nonneg.mpr hq
  have h1 : q.num.tdiv q.den = ⌊q⌋ := by
    rw [Rat.floor_def]
    exact Int.tdiv_eq_ediv hnum (Int.ofNat_nonneg _)
  rw [h1]
  have h2 : (0:Int) ≤ ⌊q⌋ := Int.floor_nonneg.mpr hq
  have h3 : ⌊q⌋ ≤ ⌈q⌉ := Int.floor_le_ceil q
  omega

/-- Claim C3 (amended): on every tick of the cost-field update, the number of
frontier entries popped and expanded is at most `iter_per_update`; the code
computes that budget by TRUNCATING `tile_count / (fps × seconds_per_iter)`
toward zero (the `as usize` cast), not as the claimed ceiling — the
truncation never exceeds the ceiling, so the claimed "at most ceiling" bound
still holds, but the stated formula for the budget is wrong. -/
theorem C3_tick_budget :
    (∀ (storage : List Nat) (f : FlowfieldQ) (delta spi : ℚ),
      (updateCostTick storage f delta spi).2 ≤
        iterPerUpdate (f.width * f.height) delta spi) ∧
    (∀ (tileCount : Int) (delta spi : ℚ),
      0 ≤ ((tileCount : ℚ)) / ((1 / delta) * spi) →
      (iterPerUpdate tileCount delta spi : Int) ≤
        ⌈((tileCount : ℚ)) / ((1 / delta) * spi)⌉) := by
  constructor
  · intro storage f delta spi
    unfold updateCostTick
    split
    · simp
    · split
      · simp
      · split
        · split
          · simp
          · exact budgetLoop_count_le _ _ _ _ _ _
        · exact budgetLoop_count_le _ _ _ _ _ _
  · intro tileCount delta spi hq
    exact ratToUsize_le_ceil _ hq

/-- Claim C3 witness: the bound applied on a concrete tick (25 tiles, 0.125 s
frame, one second per full iteration) where the truncated budget is 3 and the
ceiling is 4. -/
theorem C3_witness :
    (iterPerUpdate 25 (1/8) 1 : Int) ≤ ⌈((25 : Int) : ℚ) / ((1 / (1/8 : ℚ)) * 1)⌉ :=
  C3_tick_budget.2 25 (1/8) 1 (by norm_num)


/-- Helper: reading any entry of a flow field whose set entries are all
canonical yields an unset-or-canonical value. -/
theorem field_getD_canonical (field : List (Option Dir2Q)) (i : Nat)
    (h : ∀ o ∈ field, optCanonical o) : optCanonical (field.getD i none) := by
  rw [List.getD_eq_getElem?_getD]
  cases hg : field[i]? with
  | none => simp [optCanonical]
  | some o => simpa using h o (List.getElem?_mem hg)

/-- Helper: one scan step either keeps the accumulated direction or installs
the table direction of the current neighbour entry. -/
theorem flowScanStep_canonical (costGrid : List (Nat × Bool)) (w h : Int)
    (col row : Int) (subtileMask : Nat) (acc : Nat × Option Dir2Q × Nat)
    (nb : (Int × Int) × Dir2Q × Nat)
    (hacc : optCanonical acc.2.1) (hnb : isCanonicalDir nb.2.1) :
    optCanonical (flowScanStep costGrid w h col row subtileMask acc nb).2.1 := by
  unfold flowScanStep
  dsimp only
  split
  · exact hacc
  · split
    · exact hacc
    · split
      · split
        · exact hacc
        · exact hnb
      · exact hacc

/-- Helper: every direction in the neighbour table of `get_flow_at_tile` is
canonical. -/
theorem flow_neighbors_canonical :
    ∀ nb ∈ FLOW_NEIGHBORS, isCanonicalDir nb.2.1 := by
  intro nb hnb
  fin_cases hnb <;> exact (by decide)

/-- Helper: the gated neighbour scan preserves unset-or-canonical memoised
directions. -/
theorem flowScanResult_canonical (f : FlowfieldQ) (storage : List Nat)
    (i : Nat) (hf : ∀ o ∈ f.field, optCanonical o) :
    optCanonical (flowScanResult f storage i).2.1 := by
  unfold flowScanResult
  dsimp only
  split
  · have hbase : optCanonical
        ((U32MAX, f.field.getD i none, 0) : Nat × Option Dir2Q × Nat).2.1 :=
      field_getD_canonical f.field i hf
    generalize hgen : ((U32MAX, f.field.getD i none, 0) :
      Nat × Option Dir2Q × Nat) = acc0 at hbase ⊢
    clear hgen
    have : ∀ (l : List ((Int × Int) × Dir2Q × Nat))
        (acc : Nat × Option Dir2Q × Nat),
        (∀ nb ∈ l, isCanonicalDir nb.2.1) → optCanonical acc.2.1 →
        optCanonical ((l.foldl (flowScanStep f.costGrid f.width f.height
          ((i : Int) % f.width) ((i : Int) / f.width) (storage.getD i 0)) acc)).2.1 := by
      intro l
      induction l with
      | nil => intro acc _ hacc; exact hacc
      | cons nb rest ih =>
        intro acc hl hacc
        simp only [List.foldl_cons]
        exact ih _ (fun x hx => hl x (List.mem_cons_of_mem _ hx))
          (flowScanStep_canonical _ _ _ _ _ _ _ _ hacc
            (hl nb (List.mem_cons_self _ _)))
    exact this _ _ flow_neighbors_canonical hbase
  · exact field_getD_canonical f.field i hf

/-- Helper: an unset-or-canonical optional direction yields a canonical
direction after the `unwrap_or(Dir2::Y)` default. -/
theorem optCanonical_getD (o : Option Dir2Q) (h : optCanonical o) :
    isCanonicalDir (o.getD dirNORTH) := by
  cases o with
  | none => exact (by decide : isCanonicalDir dirNORTH)
  | some d => exact h

/-- Claim C4 (amended): with smoothing DISABLED, the flow query preserves the
invariant that every memoised entry is unset or one of the 8 canonical
compass directions, and the direction it returns is canonical (an unset
entry is replaced by the `unwrap_or(Dir2::Y)` default).  Directions are exact
vectors in the model — no NaN exists — and the only non-canonical directions
the code can produce come from the smoothing branch, which
`C4_counterexample` exhibits. -/
theorem C4_flow_canonical_without_smoothing
    (f : FlowfieldQ) (storage : List Nat) (tile : ℚ × ℚ)
    (r : Dir2Q) (f' : FlowfieldQ)
    (hf : ∀ o ∈ f.field, optCanonical o)
    (hrun : getFlowAtTile f storage tile false = .ok (r, f')) :
    isCanonicalDir r ∧ ∀ o ∈ f'.field, optCanonical o := by
  unfold getFlowAtTile at hrun
  dsimp only at hrun
  split at hrun
  · simp only [Except.ok.injEq, Prod.mk.injEq] at hrun
    obtain ⟨hr, hf'⟩ := hrun
    subst hr; subst hf'
    rename_i hmemo
    exact ⟨optCanonical_getD _ (field_getD_canonical f.field _ hf), hf⟩
  · split at hrun
    · rename_i hsm
      simp at hsm
    · simp only [Except.ok.injEq, Prod.mk.injEq] at hrun
      obtain ⟨hr, hf'⟩ := hrun
      subst hr; subst hf'
      refine ⟨optCanonical_getD _ (flowScanResult_canonical f storage _ hf), ?_⟩
      intro o ho
      dsimp only at ho
      rcases List.mem_or_eq_of_mem_set ho with hmem | rfl
      · exact hf o hmem
      · exact flowScanResult_canonical f storage _ hf

/-- Claim C4 witness: the invariant applied to the converged empty-grid state
with no memoised entries, queried at tile (0,0) with smoothing off: the
returned direction (north-east) is canonical and the memoised field stays
canonical-or-unset. -/
theorem C4_witness :
    isCanonicalDir dirNORTH_EAST ∧ ∀ o ∈ ffC4after.field, optCanonical o :=
  C4_flow_canonical_without_smoothing ffC4 emptyStorage5 (0, 0) dirNORTH_EAST
    ffC4after (by decide) (by rfl)


/-- Helper: activation does not change the spawn count. -/
theorem activateSpawner_count (s : SpawnerQ) (t : Bool) :
    (activateSpawner s t).count = s.count := by
  unfold activateSpawner; split <;> rfl

/-- Helper: activation does not change the cap. -/
theorem activateSpawner_numSpawn (s : SpawnerQ) (t : Bool) :
    (activateSpawner s t).numSpawn = s.numSpawn := by
  unfold activateSpawner; split <;> rfl

/-- Helper: activation does not change the repeat flag. -/
theorem activateSpawner_repeats (s : SpawnerQ) (t : Bool) :
    (activateSpawner s t).repeats = s.repeats := by
  unfold activateSpawner; split <;> rfl

/-- Helper: activation does not change the configured delay. -/
theorem activateSpawner_delay (s : SpawnerQ) (t : Bool) :
    (activateSpawner s t).delay = s.delay := by
  unfold activateSpawner; split <;> rfl

/-- Helper: a deactivated spawner whose count has reached its cap is inert:
one update step (triggered or not, capped or not) changes nothing and spawns
nothing, because re-activation requires `count < num_spawn`. -/
theorem updateSpawner_inert (s : SpawnerQ) (trig : Bool) (delta : ℚ)
    (cap : Bool) (hact : s.active = false) (hcnt : s.count = s.numSpawn) :
    updateSpawner s trig delta cap = (s, 0) := by
  unfold updateSpawner
  by_cases hcap : cap = true
  · rw [if_pos hcap]
  · rw [if_neg hcap]
    dsimp only
    have hs1 : activateSpawner s trig = s := by
      unfold activateSpawner
      rw [if_neg]
      rintro ⟨_, hlt, _⟩
      omega
    rw [hs1, if_neg (by rw [hact]; simp)]

/-- Claim C9 (amended): when an active spawner's count reaches `num_spawn`
during an update: with `repeats = false` it deactivates, and from then on
(deactivated, count at cap) every further update leaves it unchanged and
spawns nothing until the external reset restores count 0, the default
activation flag and the default timer; with `repeats = true` the count
resets to 0, the spawner stays active, and the timer is re-armed with
`(delay - elapsed).max(0)` — the initial delay, not the `interval` cadence
the claim states (see `C9_counterexample`). -/
theorem C9_spawner_cap_behavior :
    (∀ (s : SpawnerQ) (trig : Bool) (delta : ℚ),
      s.repeats = false → (updateSpawner s trig delta false).2 = 1 →
      (updateSpawner s trig delta false).1.count = s.numSpawn →
      (updateSpawner s trig delta false).1.active = false) ∧
    (∀ (s : SpawnerQ) (steps : List (Bool × ℚ × Bool)),
      s.active = false → s.count = s.numSpawn →
      spawnerRun s steps = (s, 0)) ∧
    (∀ s : SpawnerQ, (resetSpawner s).count = 0 ∧
      (resetSpawner s).active = s.activeDefault ∧
      (resetSpawner s).timer =
        TimerQ.fromSeconds (if s.immediate then 0 else s.delay)) ∧
    (∀ (s : SpawnerQ) (trig : Bool) (delta : ℚ),
      s.repeats = true → s.count + 1 = s.numSpawn →
      (updateSpawner s trig delta false).2 = 1 →
      ((updateSpawner s trig delta false).1.count = 0 ∧
       (updateSpawner s trig delta false).1.active = true ∧
       (updateSpawner s trig delta false).1.timer.duration =
         max (s.delay - (updateSpawner s trig delta false).1.timer.elapsed) 0)) := by
  refine ⟨?_, ?_, ?_, ?_⟩
  · intro s trig delta hrep hspawn hcnt
    unfold updateSpawner at hspawn hcnt ⊢
    rw [if_neg (by simp)] at hspawn hcnt ⊢
    dsimp only at hspawn hcnt ⊢
    by_cases hact : (activateSpawner s trig).active = true
    · rw [if_pos hact] at hspawn hcnt ⊢
      by_cases hjf :
          ((activateSpawner s trig).timer.tick delta).justFinished = true
      · rw [if_pos hjf] at hspawn hcnt ⊢
        unfold spawnerFire at hcnt ⊢
        dsimp only at hcnt ⊢
        by_cases hone : (activateSpawner s trig).count + 1 =
            (activateSpawner s trig).numSpawn
        · rw [if_pos hone] at hcnt ⊢
          rw [activateSpawner_repeats, hrep] at hcnt ⊢
          simp only [Bool.false_eq_true, if_false] at hcnt ⊢
        · rw [if_neg hone] at hcnt
          have hcnt2 : (activateSpawner s trig).count + 1 = s.numSpawn := hcnt
          refine absurd ?_ hone
          rw [activateSpawner_count] at hcnt2
          rw [activateSpawner_count, activateSpawner_numSpawn]
          exact hcnt2
      · rw [if_neg hjf] at hspawn
        exact absurd hspawn (by simp)
    · rw [if_neg hact] at hspawn
      exact absurd hspawn (by simp)
  · intro s steps hact hcnt
    induction steps with
    | nil => rfl
    | cons st rest ih =>
      unfold spawnerRun
      rw [updateSpawner_inert s st.1 st.2.1 st.2.2 hact hcnt]
      dsimp only
      rw [ih]
      rfl
  · intro s
    exact ⟨rfl, rfl, rfl⟩
  · intro s trig delta hrep hcnt hspawn
    unfold updateSpawner at hspawn ⊢
    rw [if_neg (by simp)] at hspawn ⊢
    dsimp only at hspawn ⊢
    by_cases hact : (activateSpawner s trig).active = true
    · rw [if_pos hact] at hspawn ⊢
      by_cases hjf :
          ((activateSpawner s trig).timer.tick delta).justFinished = true
      · rw [if_pos hjf] at hspawn ⊢
        unfold spawnerFire
        dsimp only
        have hone : (activateSpawner s trig).count + 1 =
            (activateSpawner s trig).numSpawn := by
          rw [activateSpawner_count, activateSpawner_numSpawn]; exact hcnt
        rw [if_pos hone, activateSpawner_repeats, hrep]
        refine ⟨by simp, by simp [hact], ?_⟩
        simp only [if_true]
        dsimp only [TimerQ.setDuration]
        rw [activateSpawner_delay]
      · rw [if_neg hjf] at hspawn
        exact absurd hspawn (by simp)
    · rw [if_neg hact] at hspawn
      exact absurd hspawn (by simp)

/-- Claim C9 witness: the wrap-around behaviour applied to a concrete
repeating spawner one spawn before its cap: after the firing tick the count
is 0, the spawner is still active and the timer is re-armed with the delay. -/
theorem C9_witness :
    (updateSpawner spawnerC9armed false 1 false).1.count = 0 ∧
    (updateSpawner spawnerC9armed false 1 false).1.active = true ∧
    (updateSpawner spawnerC9armed false 1 false).1.timer.duration =
      max (spawnerC9armed.delay -
        (updateSpawner spawnerC9armed false 1 false).1.timer.elapsed) 0 :=
  C9_spawner_cap_behavior.2.2.2 spawnerC9armed false 1 (by decide) (by decide)
    (by decide)

/-- Helper: an in-bounds defaulted read is a member of the list. -/
theorem getD_mem {α : Type} (l : List α) (n : Nat) (dflt : α)
    (h : n < l.length) : l.getD n dflt ∈ l := by
  rw [List.getD_eq_getElem?_getD, List.getElem?_eq_getElem h]
  exact List.getElem_mem h

/-- Helper: writing at an index and reading it back. -/
theorem getD_set_self {α : Type} (l : List α) (n : Nat) (v dflt : α)
    (h : n < l.length) : (l.set n v).getD n dflt = v := by
  rw [List.getD_eq_getElem?_getD, List.getElem?_set_self (by omega)]
  rfl

/-- Helper: writing at one index leaves reads elsewhere unchanged. -/
theorem getD_set_ne {α : Type} (l : List α) (n m : Nat) (v dflt : α)
    (h : n ≠ m) : (l.set n v).getD m dflt = l.getD m dflt := by
  rw [List.getD_eq_getElem?_getD, List.getD_eq_getElem?_getD,
    List.getElem?_set_ne h]

/-- Helper: elements of a sift-up result come from the data or are the
inserted element. -/
theorem siftUpFuel_mem :
    ∀ (fuel : Nat) (d : List Node) (elem : Node) (start pos : Nat)
      (x : Node), pos < d.length →
      x ∈ (siftUpFuel fuel d elem start pos).1 → x ∈ d ∨ x = elem := by
  intro fuel
  induction fuel with
  | zero =>
    intro d elem start pos x _ hx
    exact List.mem_or_eq_of_mem_set hx
  | succ k ih =>
    intro d elem start pos x hpos hx
    unfold siftUpFuel at hx
    dsimp only at hx
    split at hx
    · rename_i hlt
      split at hx
      · exact List.mem_or_eq_of_mem_set hx
      · have hparent : (pos - 1) / 2 < d.length := by
          have : (pos - 1) / 2 ≤ pos - 1 := Nat.div_le_self _ _
          omega
        have := ih (d.set pos (d.getD ((pos - 1) / 2) dNode)) elem start
          ((pos - 1) / 2) x (by rw [List.length_set]; exact hparent) hx
        rcases this with hmem | he
        · rcases List.mem_or_eq_of_mem_set hmem with h1 | h1
          · exact Or.inl h1
          · exact Or.inl (h1 ▸ getD_mem d _ dNode hparent)
        · exact Or.inr he
    · exact List.mem_or_eq_of_mem_set hx

/-- Helper: elements of a pushed heap come from the heap or are the pushed
node. -/
theorem heapPush_mem (d : List Node) (item x : Node)
    (hx : x ∈ heapPush d item) : x ∈ d ∨ x = item := by
  unfold heapPush at hx
  have := siftUpFuel_mem d.length (d ++ [item]) item 0 d.length x
    (by simp) hx
  rcases this with hmem | he
  · rcases List.mem_append.mp hmem with h1 | h1
    · exact Or.inl h1
    · exact Or.inr (List.mem_singleton.mp h1)
  · exact Or.inr he

/-- Helper: the sift-down descent does not change the data length. -/
theorem siftDownLoop_len :
    ∀ (fuel : Nat) (d : List Node) (pos endd : Nat),
      (siftDownLoop fuel d pos endd).1.length = d.length := by
  intro fuel
  induction fuel with
  | zero => intro d pos endd; rfl
  | succ k ih =>
    intro d pos endd
    unfold siftDownLoop
    dsimp only
    split
    · rw [ih, List.length_set]
    · rfl

/-- Helper: the sift-down descent keeps the hole position inside the range. -/
theorem siftDownLoop_pos :
    ∀ (fuel : Nat) (d : List Node) (pos endd : Nat), pos < endd →
      (siftDownLoop fuel d pos endd).2 < endd := by
  intro fuel
  induction fuel with
  | zero => intro d pos endd h; exact h
  | succ k ih =>
    intro d pos endd h
    unfold siftDownLoop
    dsimp only
    split
    · rename_i hc
      split <;> [exact ih _ _ _ (by omega); exact ih _ _ _ (by omega)]
    · exact h

/-- Helper: elements after the sift-down descent come from the data. -/
theorem siftDownLoop_mem :
    ∀ (fuel : Nat) (d : List Node) (pos endd : Nat) (x : Node),
      endd ≤ d.length → x ∈ (siftDownLoop fuel d pos endd).1 → x ∈ d := by
  intro fuel
  induction fuel with
  | zero => intro d pos endd x _ hx; exact hx
  | succ k ih =>
    intro d pos endd x hlen hx
    unfold siftDownLoop at hx
    dsimp only at hx
    split at hx
    · rename_i hc
      have hchild : ∀ c : Nat, c < endd → d.getD c dNode ∈ d := fun c hcd =>
        getD_mem d c dNode (by omega)
      have := ih _ _ _ x (by rw [List.length_set]; exact hlen) hx
      rcases List.mem_or_eq_of_mem_set this with h1 | h1
      · exact h1
      · subst h1
        split <;> exact hchild _ (by omega)
    · exact hx

/-- Helper: elements after a full sift-down come from the data or are the
lifted element. -/
theorem siftDownToBottom_mem (d : List Node) (elem : Node) (pos : Nat)
    (x : Node) (hpos : pos < d.length)
    (hx : x ∈ siftDownToBottom d elem pos) : x ∈ d ∨ x = elem := by
  unfold siftDownToBottom at hx
  dsimp only at hx
  have hlen1 : (siftDownLoop d.length d pos d.length).1.length = d.length :=
    siftDownLoop_len _ _ _ _
  have hpos1 : (siftDownLoop d.length d pos d.length).2 < d.length :=
    siftDownLoop_pos _ _ _ _ hpos
  set r1 := siftDownLoop d.length d pos d.length with hr1
  by_cases hfin : 2 * r1.2 + 1 + 1 = d.length
  · rw [if_pos hfin] at hx
    have hchild : 2 * r1.2 + 1 < d.length := by omega
    have := siftUpFuel_mem _ _ elem pos _ x
      (by rw [List.length_set, hlen1]; exact hchild) hx
    rcases this with hmem | he
    · rcases List.mem_or_eq_of_mem_set hmem with h1 | h1
      · exact Or.inl (siftDownLoop_mem _ _ _ _ _ (le_refl _) h1)
      · subst h1
        exact Or.inl (siftDownLoop_mem _ _ _ _ _ (le_refl _)
          (getD_mem _ _ dNode (by rw [hlen1]; exact hchild)))
    · exact Or.inr he
  · rw [if_neg hfin] at hx
    have := siftUpFuel_mem _ _ elem pos _ x (by rw [hlen1]; exact hpos1) hx
    rcases this with hmem | he
    · exact Or.inl (siftDownLoop_mem _ _ _ _ _ (le_refl _) hmem)
    · exact Or.inr he

/-- Helper: a pop returns a member of the heap, and the remaining heap's
elements all come from the original heap. -/
theorem heapPop_mem (d : List Node) (nd : Node) (d' : List Node)
    (h : heapPop d = some (nd, d')) :
    nd ∈ d ∧ ∀ x ∈ d', x ∈ d := by
  unfold heapPop at h
  cases hlast : d.getLast? with
  | none => rw [hlast] at h; exact absurd h (by simp)
  | some last =>
    rw [hlast] at h
    dsimp only at h
    have hlastmem : last ∈ d := List.mem_of_mem_getLast? hlast
    by_cases hemp : d.dropLast.length = 0
    · rw [if_pos hemp] at h
      simp only [Option.some.injEq, Prod.mk.injEq] at h
      obtain ⟨h1, h2⟩ := h
      subst h1; subst h2
      constructor
      · exact hlastmem
      · intro x hx
        exact (List.dropLast_sublist d).mem hx
    · rw [if_neg hemp] at h
      simp only [Option.some.injEq, Prod.mk.injEq] at h
      obtain ⟨h1, h2⟩ := h
      subst h1; subst h2
      constructor
      · exact (List.dropLast_sublist d).mem
          (getD_mem _ 0 dNode (by omega))
      · intro x hx
        have := siftDownToBottom_mem _ last 0 x
          (by rw [List.length_set]; omega) hx
        rcases this with hmem | he
        · rcases List.mem_or_eq_of_mem_set hmem with h1 | h1
          · exact (List.dropLast_sublist d).mem h1
          · exact h1 ▸ hlastmem
        · exact he ▸ hlastmem

/-- Helper: in-bounds defaulted reads do not depend on the default. -/
theorem getD_eq_of_lt {α : Type} (l : List α) (n : Nat) (d1 d2 : α)
    (h : n < l.length) : l.getD n d1 = l.getD n d2 := by
  rw [List.getD_eq_getElem?_getD, List.getD_eq_getElem?_getD,
    List.getElem?_eq_getElem h]
  rfl

/-- Helper: how a single write changes a `countP`. -/
theorem countP_set {α : Type} (p : α → Bool) :
    ∀ (l : List α) (n : Nat) (v : α), n < l.length →
      (l.set n v).countP p + (if p (l.getD n v) then 1 else 0) =
        l.countP p + (if p v then 1 else 0) := by
  intro l
  induction l with
  | nil => intro n v h; simp at h
  | cons a t ih =>
    intro n v h
    cases n with
    | zero =>
      simp only [List.set_cons_zero, List.getD_cons_zero, List.countP_cons]
      omega
    | succ m =>
      simp only [List.set_cons_succ, List.getD_cons_succ, List.countP_cons]
      have := ih m v (by simpa using h)
      omega

/-- Helper: marking a cell visited never decreases the visited count. -/
theorem visitedCount_set_true_le (g : List (Nat × Bool)) (n : Nat) (c : Nat) :
    visitedCount g ≤ visitedCount (g.set n (c, true)) := by
  by_cases h : n < g.length
  · have hc := countP_set (fun x => x.2) g n (c, true) h
    rw [if_pos (by simp : ((fun (x : Nat × Bool) => x.2) (c, true)) = true)]
      at hc
    simp only [visitedCount]
    split at hc <;> omega
  · rw [List.set_eq_of_length_le (by omega)]

/-- Helper: marking an unvisited cell visited increments the visited count. -/
theorem visitedCount_set_unvisited (g : List (Nat × Bool)) (n : Nat) (c : Nat)
    (h : n < g.length) (hun : (g.getD n (U32MAX, false)).2 = false) :
    visitedCount (g.set n (c, true)) = visitedCount g + 1 := by
  have hc := countP_set (fun x => x.2) g n (c, true) h
  have hun2 : ¬ ((fun (x : Nat × Bool) => x.2) (g.getD n (c, true)) = true) := by
    show ¬ ((g.getD n (c, true)).2 = true)
    rw [getD_eq_of_lt g n (c, true) (U32MAX, false) h, hun]
    simp
  rw [if_neg hun2,
    if_pos (by simp : ((fun (x : Nat × Bool) => x.2) (c, true)) = true)] at hc
  simp only [visitedCount]
  omega

/-- Helper: the visited count never exceeds the grid size. -/
theorem visitedCount_le (g : List (Nat × Bool)) :
    visitedCount g ≤ g.length :=
  List.countP_le_length _

/-- Helper: every cell of a valid chain satisfies `vertexOk`. -/
theorem chainOk_mem_vertexOk (storage : List Nat) (w h : Int)
    (g : List (Nat × Bool)) :
    ∀ (p : List Nat), chainOk storage w h g p = true →
      ∀ j ∈ p, vertexOk storage w h g j = true := by
  intro p
  induction p with
  | nil => intro _ j hj; simp at hj
  | cons i rest ih =>
    intro hc j hj
    cases rest with
    | nil =>
      rcases List.mem_singleton.mp hj with rfl
      exact hc
    | cons i2 rest2 =>
      unfold chainOk at hc
      simp only [Bool.and_eq_true] at hc
      rcases hj with _ | hj2
      · exact hc.1.1
      · exact ih hc.2 j (by assumption)

/-- Helper: a chain's validity only depends on the grid values of its own
cells. -/
theorem chainOk_stable (storage : List Nat) (w h : Int)
    (g g' : List (Nat × Bool)) :
    ∀ (p : List Nat),
      (∀ j ∈ p, g'.getD j (U32MAX, false) = g.getD j (U32MAX, false)) →
      chainOk storage w h g p = true → chainOk storage w h g' p = true := by
  intro p
  induction p with
  | nil => intro _ _; rfl
  | cons i rest ih =>
    intro hsame hc
    have hvsame : ∀ j ∈ (i :: rest), vertexOk storage w h g' j =
        vertexOk storage w h g j := by
      intro j hj
      unfold vertexOk
      rw [hsame j hj]
    cases rest with
    | nil =>
      unfold chainOk at hc ⊢
      rw [hvsame i (by simp)]
      exact hc
    | cons i2 rest2 =>
      unfold chainOk at hc ⊢
      simp only [Bool.and_eq_true] at hc ⊢
      refine ⟨⟨?_, ?_⟩, ?_⟩
      · rw [hvsame i (by simp)]; exact hc.1.1
      · rw [hsame i (by simp), hsame i2 (by simp)]
        exact hc.1.2
      · exact ih (fun j hj => hsame j (List.mem_cons_of_mem _ hj)) hc.2

/-- Helper: extending a valid chain by one admissible move whose recorded
cost matches. -/
theorem chainOk_append (storage : List Nat) (w h : Int)
    (g : List (Nat × Bool)) :
    ∀ (p : List Nat) (a b : Nat), chainOk storage w h g p = true →
      p.getLast? = some a → vertexOk storage w h g b = true →
      ((moveCosts storage w h a b).any
        (fun c => (g.getD b (U32MAX, false)).1 =
          (g.getD a (U32MAX, false)).1 + c)) = true →
      chainOk storage w h g (p ++ [b]) = true := by
  intro p
  induction p with
  | nil => intro a b _ hlast _ _; simp at hlast
  | cons i rest ih =>
    intro a b hc hlast hvb hmv
    cases rest with
    | nil =>
      simp only [List.getLast?_singleton, Option.some.injEq] at hlast
      subst hlast
      show chainOk storage w h g (i :: [b]) = true
      unfold chainOk
      simp only [Bool.and_eq_true]
      exact ⟨⟨hc, hmv⟩, hvb⟩
    | cons i2 rest2 =>
      have hlast2 : (i2 :: rest2).getLast? = some a := by
        rwa [List.getLast?_cons_cons] at hlast
      unfold chainOk at hc
      simp only [Bool.and_eq_true] at hc
      have := ih a b hc.2 hlast2 hvb hmv
      show chainOk storage w h g (i :: ((i2 :: rest2) ++ [b])) = true
      rw [List.cons_append]
      unfold chainOk
      simp only [Bool.and_eq_true]
      exact ⟨⟨hc.1.1, hc.1.2⟩, this⟩

/-- Helper: coordinates decoded from an in-bounds index are in bounds and
recompose to the index. -/
theorem coords_of_index (w h : Int) (i : Nat) (hw : 0 < w) (hh : 0 < h)
    (hi : i < tiles w h) :
    0 ≤ (i : Int) % w ∧ (i : Int) % w < w ∧ 0 ≤ (i : Int) / w ∧
    (i : Int) / w < h ∧ (i : Int) % w + ((i : Int) / w) * w = (i : Int) := by
  have hiwh : (i : Int) < w * h := by
    unfold tiles at hi
    omega
  refine ⟨Int.emod_nonneg _ (by omega), Int.emod_lt_of_pos _ hw,
    Int.ediv_nonneg (by positivity) (by omega), ?_, ?_⟩
  · rw [Int.ediv_lt_iff_lt_mul hw]
    linarith [hiwh]
  · have := Int.emod_add_ediv (i : Int) w
    linarith [this]

/-- Helper: an in-bounds coordinate pair gives an in-bounds index. -/
theorem index_of_coords (w h : Int) (nx ny : Int) (h1 : 0 ≤ nx) (h2 : nx < w)
    (h3 : 0 ≤ ny) (h4 : ny < h) :
    ((nx + ny * w).toNat : Int) = nx + ny * w ∧
      (nx + ny * w).toNat < tiles w h := by
  have hnn : 0 ≤ nx + ny * w := add_nonneg h1 (mul_nonneg h3 (by omega))
  have hmul : ny * w ≤ (h - 1) * w :=
    mul_le_mul_of_nonneg_right (by omega) (by omega)
  have hexp : (h - 1) * w = h * w - w := by ring
  have hcomm : h * w = w * h := mul_comm h w
  have hlt : nx + ny * w < w * h := by omega
  constructor
  · exact Int.toNat_of_nonneg hnn
  · unfold tiles
    omega

/-- Helper: a cleared shifted-mask bit means the unshifted bit is clear. -/
theorem mask_bit_clear (m dmask b : Nat) (hb : b < 4)
    (hz : ((m <<< 4) % 256) &&& dmask = 0)
    (hd : dmask.testBit (b + 4) = true) : m.testBit b = false := by
  by_contra hcon
  rw [Bool.not_eq_false] at hcon
  have h1 : (m <<< 4).testBit (b + 4) = true := by
    rw [Nat.testBit_shiftLeft]
    simpa using hcon
  have h2 : ((m <<< 4) % 256).testBit (b + 4) = true := by
    have h256 : (256 : Nat) = 2 ^ 8 := by norm_num
    rw [h256, Nat.testBit_mod_two_pow]
    simp only [h1, Bool.and_true]
    simp
    omega
  have h3 : (((m <<< 4) % 256) &&& dmask).testBit (b + 4) = true := by
    rw [Nat.testBit_and, h2, hd]
    rfl
  rw [hz] at h3
  simp [Nat.zero_testBit] at h3

/-- Helper: one expansion step never clears wall-mask bits. -/
theorem expandStep_mask_mono (storage : List Nat) (w h : Int) (x y : Int)
    (cost : Nat) (acc : ExpandAcc) (nb : (Int × Int) × Nat × Nat) (b : Nat)
    (hb : acc.wallMask.testBit b = true) :
    (expandStep storage w h x y cost acc nb).wallMask.testBit b = true := by
  unfold expandStep
  dsimp only
  split
  · exact hb
  · split
    · simp only
      rw [Nat.testBit_or, hb]
      rfl
    · split
      · exact hb
      · split
        · exact hb
        · exact hb

/-- Helper: when the neighbour of an expansion step is an in-bounds wall,
the step records the entry's mask bits. -/
theorem expandStep_mask_wall (storage : List Nat) (w h : Int) (x y : Int)
    (cost : Nat) (acc : ExpandAcc) (nb : (Int × Int) × Nat × Nat) (b : Nat)
    (hb : nb.2.2.testBit b = true)
    (hbounds : ¬ (x + nb.1.1 < 0 ∨ w ≤ x + nb.1.1 ∨ y + nb.1.2 < 0 ∨
      h ≤ y + nb.1.2))
    (hwall : storage.getD ((x + nb.1.1) + (y + nb.1.2) * w).toNat 0 ≠ 0) :
    (expandStep storage w h x y cost acc nb).wallMask.testBit b = true := by
  unfold expandStep
  dsimp only
  rw [if_neg hbounds, if_pos hwall]
  simp only
  rw [Nat.testBit_or, hb]
  simp

/-- Helper: unpacking a `vertexOk` check. -/
theorem vertexOk_iff (storage : List Nat) (w h : Int) (g : List (Nat × Bool))
    (i : Nat) : vertexOk storage w h g i = true ↔
      (i < tiles w h ∧ storage.getD i 0 = 0 ∧
       (g.getD i (U32MAX, false)).2 = true ∧
       (g.getD i (U32MAX, false)).1 ≠ U32MAX) := by
  unfold vertexOk tiles
  simp

/-- Helper: a discovered path is unaffected by a write to a wall cell or to
an unvisited cell, since all its cells are open and visited. -/
theorem discoveredPath_stable (storage : List Nat) (w h : Int)
    (g : List (Nat × Bool)) (start j : Nat) (p : List Nat) (n : Nat)
    (v : Nat × Bool) (hp : DiscoveredPath storage w h g start j p)
    (hn : (g.getD n (U32MAX, false)).2 = false ∨ storage.getD n 0 ≠ 0) :
    DiscoveredPath storage w h (g.set n v) start j p := by
  obtain ⟨hc, hhead, hlast⟩ := hp
  refine ⟨chainOk_stable storage w h g (g.set n v) p ?_ hc, hhead, hlast⟩
  intro cell hcell
  have hv := (vertexOk_iff storage w h g cell).mp
    (chainOk_mem_vertexOk storage w h g p hc cell hcell)
  have hne : cell ≠ n := by
    rcases hn with h1 | h1
    · intro he; rw [he] at hv; rw [hv.2.2.1] at h1; exact absurd h1 (by simp)
    · intro he; rw [he] at hv; exact h1 hv.2.1
  exact getD_set_ne _ _ _ _ _ (fun he => hne he.symm)

/-- Helper: an admissible move contributes its step cost to `moveCosts`. -/
theorem moveCosts_mem (storage : List Nat) (w h : Int) (a b c : Nat)
    (nb : (Int × Int) × Nat × Nat) (hnb : nb ∈ NEIGHBORS)
    (hms : moveStep storage w h a nb = some (b, c)) :
    c ∈ moveCosts storage w h a b := by
  unfold moveCosts
  rw [List.mem_filterMap]
  refine ⟨nb, hnb, ?_⟩
  rw [hms]
  simp

/-- Helper: one iteration of the neighbour loop of `update_cost` preserves
the expansion invariant, provided that when the step is a diagonal whose
wall-mask check passes, both flanking cells are open. -/
theorem expandStep_inv (storage : List Nat) (w h : Int) (start : Nat)
    (g0 : List (Nat × Bool)) (i0 cost0 : Nat)
    (acc : ExpandAcc) (nb : (Int × Int) × Nat × Nat)
    (hw : 0 < w) (hh : 0 < h) (hnbmem : nb ∈ NEIGHBORS)
    (hT : 14 * tiles w h < U32MAX)
    (hinv : EInv storage w h start g0 i0 cost0 acc)
    (hside : nb.2.1 = 14 →
      ¬ ((i0 : Int) % w + nb.1.1 < 0 ∨ w ≤ (i0 : Int) % w + nb.1.1 ∨
         (i0 : Int) / w + nb.1.2 < 0 ∨ h ≤ (i0 : Int) / w + nb.1.2) →
      ((acc.wallMask <<< 4) % 256) &&& nb.2.2 = 0 →
      storage.getD (((i0 : Int) % w + nb.1.1) + ((i0 : Int) / w) * w).toNat 0
        = 0 ∧
      storage.getD ((i0 : Int) % w + ((i0 : Int) / w + nb.1.2) * w).toNat 0
        = 0) :
    EInv storage w h start g0 i0 cost0
      (expandStep storage w h ((i0 : Int) % w) ((i0 : Int) / w) cost0 acc nb)
      := by
  have hstep : nb.2.1 = 10 ∨ nb.2.1 = 14 := by
    fin_cases hnbmem <;> simp
  obtain ⟨hgl, hhm, hrc, hvm, hpg, hpo, hpn⟩ := hinv
  unfold expandStep
  dsimp only
  split
  · exact ⟨hgl, hhm, hrc, hvm, hpg, hpo, hpn⟩
  · rename_i hbounds
    have hnidx := index_of_coords w h ((i0 : Int) % w + nb.1.1)
      ((i0 : Int) / w + nb.1.2) (by omega) (by omega) (by omega) (by omega)
    split
    · -- wall branch: the neighbour cell is stamped (u32::MAX, visited)
      rename_i hwall
      set n := (((i0 : Int) % w + nb.1.1) +
        ((i0 : Int) / w + nb.1.2) * w).toNat with hn
      have hvcle := visitedCount_set_true_le acc.costGrid n U32MAX
      refine ⟨?_, ?_, ?_, ?_, ?_, ?_, ?_⟩
      · simp only [List.length_set]; exact hgl
      · intro nd hnd
        obtain ⟨h1, h2, h3, h4⟩ := hhm nd hnd
        have hne : nd.index ≠ n := by
          intro he; rw [← he] at hwall; exact hwall h2
        refine ⟨h1, h2, ?_, le_trans h4 (by dsimp only; omega)⟩
        rw [getD_set_ne _ _ _ _ _ (fun he => hne he.symm)]
        exact h3
      · intro j hj hvis hcost
        by_cases hjn : j = n
        · subst hjn
          rw [getD_set_self _ _ _ _ (by rw [hgl]; exact hnidx.2)] at hcost
          exact absurd rfl hcost
        · rw [getD_set_ne _ _ _ _ _ (fun he => hjn he.symm)] at hvis hcost
          obtain ⟨p, hp⟩ := hrc j hj hvis hcost
          exact ⟨p, discoveredPath_stable storage w h acc.costGrid start j p
            n _ hp (Or.inr hwall)⟩
      · intro j hj
        by_cases hjn : j = n
        · subst hjn
          rw [getD_set_self _ _ _ _ (by rw [hgl]; exact hnidx.2)]
        · rw [getD_set_ne _ _ _ _ _ (fun he => hjn he.symm)]
          exact hvm j hj
      · obtain ⟨h1, h2, h3, h4⟩ := hpg
        have hne : i0 ≠ n := by
          intro he; rw [← he] at hwall; exact hwall h2
        refine ⟨?_, h2, h3, le_trans h4 (by dsimp only; omega)⟩
        rw [getD_set_ne _ _ _ _ _ (fun he => hne he.symm)]
        exact h1
      · intro j hj
        obtain ⟨h1, h2⟩ := hpo j hj
        by_cases hjn : j = n
        · subst hjn
          exact ⟨getD_set_self _ _ _ _ (by rw [hgl]; exact hnidx.2) ▸ rfl, h2⟩
        · rw [getD_set_ne _ _ _ _ _ (fun he => hjn he.symm)]
          exact ⟨h1, h2⟩
      · exact hpn
    · rename_i hopen
      split
      · exact ⟨hgl, hhm, hrc, hvm, hpg, hpo, hpn⟩
      · split
        · exact ⟨hgl, hhm, hrc, hvm, hpg, hpo, hpn⟩
        · -- stamp branch
          rename_i hunvis hdiag
          set n := (((i0 : Int) % w + nb.1.1) +
            ((i0 : Int) / w + nb.1.2) * w).toNat with hn
          have hnT : n < tiles w h := hnidx.2
          have hnlen : n < acc.costGrid.length := by rw [hgl]; exact hnT
          have hopen2 : storage.getD n 0 = 0 := by
            by_contra hc; exact hopen hc
          have hunvis2 : (acc.costGrid.getD n (U32MAX, false)).2 = false := by
            simpa using hunvis
          have hvc := visitedCount_set_unvisited acc.costGrid n
            (cost0 + nb.2.1) hnlen hunvis2
          have hvcT : visitedCount acc.costGrid + 1 ≤ tiles w h := by
            have := visitedCount_le (acc.costGrid.set n (cost0 + nb.2.1, true))
            rw [hvc] at this
            rw [List.length_set, hgl] at this
            exact this
          have hnewlt : cost0 + nb.2.1 < U32MAX := by
            obtain ⟨_, _, _, h4⟩ := hpg
            rcases hstep with hs | hs <;> rw [hs] <;> omega
          have hi0ne : i0 ≠ n := by
            intro he
            obtain ⟨h1, _, _, _⟩ := hpg
            rw [← he] at hunvis2
            rw [h1] at hunvis2
            simp at hunvis2
          have hms : moveStep storage w h i0 nb = some (n, nb.2.1) := by
            unfold moveStep
            dsimp only
            rw [if_neg hbounds, if_neg (by simpa using hopen2)]
            rw [if_neg ?_]
            rcases hstep with hs | hs
            · rw [hs]; rintro ⟨hc, _⟩; exact absurd hc (by norm_num)
            · have hmz : ((acc.wallMask <<< 4) % 256) &&& nb.2.2 = 0 := by
                by_contra hc
                exact hdiag ⟨hs, hc⟩
              obtain ⟨hf1, hf2⟩ := hside hs hbounds hmz
              rintro ⟨_, hfl⟩
              rcases hfl with hcc | hcc
              · exact hcc hf1
              · exact hcc hf2
          refine ⟨?_, ?_, ?_, ?_, ?_, ?_, ?_⟩
          · simp only [List.length_set]; exact hgl
          · intro nd hnd
            rcases heapPush_mem acc.heap ⟨n, cost0 + nb.2.1⟩ nd hnd with
              hold | hnew
            · obtain ⟨h1, h2, h3, h4⟩ := hhm nd hold
              have hne : nd.index ≠ n := by
                intro he
                rw [he] at h3
                rw [h3] at hunvis2
                simp at hunvis2
              refine ⟨h1, h2, ?_, by dsimp only; rw [hvc]; omega⟩
              rw [getD_set_ne _ _ _ _ _ (fun he => hne he.symm)]
              exact h3
            · subst hnew
              refine ⟨hnT, hopen2, getD_set_self _ _ _ _ hnlen, ?_⟩
              obtain ⟨_, _, _, h4⟩ := hpg
              dsimp only
              rw [hvc]
              rcases hstep with hs | hs <;> rw [hs] <;> omega
          · intro j hj hvis hcost
            by_cases hjn : j = n
            · subst hjn
              obtain ⟨h1, h2, h3, h4⟩ := hpg
              have hc0 : cost0 ≠ U32MAX := by
                have := visitedCount_le acc.costGrid
                rw [hgl] at this
                omega
              obtain ⟨p0, hp0⟩ := hrc i0 h3 (by rw [h1]) (by rw [h1]; exact hc0)
              have hp0' := discoveredPath_stable storage w h acc.costGrid
                start i0 p0 n (cost0 + nb.2.1, true) hp0 (Or.inl hunvis2)
              obtain ⟨hc0', hhead0, hlast0⟩ := hp0'
              refine ⟨p0 ++ [n], ?_, ?_, List.getLast?_concat _⟩
              · refine chainOk_append storage w h _ p0 i0 n hc0' hlast0 ?_ ?_
                · rw [vertexOk_iff]
                  exact ⟨hnT, hopen2, by rw [getD_set_self _ _ _ _ hnlen],
                    by rw [getD_set_self _ _ _ _ hnlen]; simpa using
                      Nat.ne_of_lt hnewlt⟩
                · rw [List.any_eq_true]
                  refine ⟨nb.2.1, moveCosts_mem storage w h i0 n nb.2.1 nb
                    hnbmem hms, ?_⟩
                  rw [getD_set_self _ _ _ _ hnlen,
                    getD_set_ne _ _ _ _ _ (fun he => hi0ne he.symm), h1]
                  simp
              · cases p0 with
                | nil => simp at hhead0
                | cons a t => simpa using hhead0
            · rw [getD_set_ne _ _ _ _ _ (fun he => hjn he.symm)] at hvis hcost
              obtain ⟨p, hp⟩ := hrc j hj hvis hcost
              exact ⟨p, discoveredPath_stable storage w h acc.costGrid start
                j p n _ hp (Or.inl hunvis2)⟩
          · intro j hj
            by_cases hjn : j = n
            · subst hjn
              rw [getD_set_self _ _ _ _ hnlen]
            · rw [getD_set_ne _ _ _ _ _ (fun he => hjn he.symm)]
              exact hvm j hj
          · obtain ⟨h1, h2, h3, h4⟩ := hpg
            refine ⟨?_, h2, h3, by dsimp only; rw [hvc]; omega⟩
            rw [getD_set_ne _ _ _ _ _ (fun he => hi0ne he.symm)]
            exact h1
          · intro j hj
            rcases List.mem_append.mp hj with hold | hnew
            · obtain ⟨h1, h2⟩ := hpo j hold
              by_cases hjn : j = n
              · subst hjn
                exact ⟨by rw [getD_set_self _ _ _ _ hnlen], h2⟩
              · rw [getD_set_ne _ _ _ _ _ (fun he => hjn he.symm)]
                exact ⟨h1, h2⟩
            · rcases List.mem_singleton.mp hnew with rfl
              refine ⟨by rw [getD_set_self _ _ _ _ hnlen], ?_⟩
              by_contra hg0
              rw [Bool.not_eq_false] at hg0
              rw [hvm n hg0] at hunvis2
              exact absurd hunvis2 (by simp)
          · rw [List.nodup_append]
            refine ⟨hpn, List.nodup_singleton _, ?_⟩
            intro j hjp hjn
            rcases List.mem_singleton.mp hjn with rfl
            obtain ⟨h1, _⟩ := hpo n hjp
            rw [h1] at hunvis2
            exact absurd hunvis2 (by simp)

/-- Helper: the full 8-neighbour loop of one expansion preserves the
expansion invariant.  The side conditions of the four diagonal steps follow
from the wall-mask bits recorded by the earlier orthogonal steps of the same
loop: a passing `(wall_mask << 4) & mask` check means neither flanking
orthogonal neighbour was seen as a wall, and every in-bounds wall flank is
seen by its orthogonal step, which runs before every diagonal step. -/
theorem expandNeighbors_inv (storage : List Nat) (w h : Int) (start : Nat)
    (i0 cost0 : Nat) (g : List (Nat × Bool)) (heap0 : List Node)
    (hw : 0 < w) (hh : 0 < h) (hT : 14 * tiles w h < U32MAX)
    (hinv : EInv storage w h start g i0 cost0
      { costGrid := g, heap := heap0, wallMask := 0, pushed := [] }) :
    EInv storage w h start g i0 cost0
      (expandNeighbors storage w h ((i0 : Int) % w) ((i0 : Int) / w) cost0
        g heap0) := by
  have hi0T : i0 < tiles w h := hinv.popGood.2.2.1
  obtain ⟨hx0, hxw, hy0, hyh, _⟩ := coords_of_index w h i0 hw hh hi0T
  unfold expandNeighbors NEIGHBORS
  simp only [List.foldl_cons, List.foldl_nil]
  set a0 : ExpandAcc :=
    { costGrid := g, heap := heap0, wallMask := 0, pushed := [] } with ha0
  set a1 := expandStep storage w h ((i0 : Int) % w) ((i0 : Int) / w) cost0
    a0 ((0, 1), 10, 8) with ha1
  set a2 := expandStep storage w h ((i0 : Int) % w) ((i0 : Int) / w) cost0
    a1 ((1, 0), 10, 4) with ha2
  set a3 := expandStep storage w h ((i0 : Int) % w) ((i0 : Int) / w) cost0
    a2 ((0, -1), 10, 2) with ha3
  set a4 := expandStep storage w h ((i0 : Int) % w) ((i0 : Int) / w) cost0
    a3 ((-1, 0), 10, 1) with ha4
  set a5 := expandStep storage w h ((i0 : Int) % w) ((i0 : Int) / w) cost0
    a4 ((1, 1), 14, 192) with ha5
  set a6 := expandStep storage w h ((i0 : Int) % w) ((i0 : Int) / w) cost0
    a5 ((1, -1), 14, 96) with ha6
  set a7 := expandStep storage w h ((i0 : Int) % w) ((i0 : Int) / w) cost0
    a6 ((-1, -1), 14, 48) with ha7
  have hN : (i0 : Int) / w + 1 < h →
      storage.getD ((i0 : Int) % w + ((i0 : Int) / w + 1) * w).toNat 0 ≠ 0 →
      a4.wallMask.testBit 3 = true := by
    intro hbd hwl
    have he : (i0 : Int) % w + ((i0 : Int) / w + 1) * w =
        (i0 : Int) % w + 0 + ((i0 : Int) / w + 1) * w := by ring
    rw [he] at hwl
    have h1 := expandStep_mask_wall storage w h ((i0 : Int) % w)
      ((i0 : Int) / w) cost0 a0 ((0, 1), 10, 8) 3 (by decide)
      (by dsimp only; omega) hwl
    rw [← ha1] at h1
    have h2 := expandStep_mask_mono storage w h ((i0 : Int) % w)
      ((i0 : Int) / w) cost0 a1 ((1, 0), 10, 4) 3 h1
    rw [← ha2] at h2
    have h3 := expandStep_mask_mono storage w h ((i0 : Int) % w)
      ((i0 : Int) / w) cost0 a2 ((0, -1), 10, 2) 3 h2
    rw [← ha3] at h3
    have h4 := expandStep_mask_mono storage w h ((i0 : Int) % w)
      ((i0 : Int) / w) cost0 a3 ((-1, 0), 10, 1) 3 h3
    rw [← ha4] at h4
    exact h4
  have hE : (i0 : Int) % w + 1 < w →
      storage.getD ((i0 : Int) % w + 1 + ((i0 : Int) / w) * w).toNat 0 ≠ 0 →
      a4.wallMask.testBit 2 = true := by
    intro hbd hwl
    have he : (i0 : Int) % w + 1 + ((i0 : Int) / w) * w =
        (i0 : Int) % w + 1 + ((i0 : Int) / w + 0) * w := by ring
    rw [he] at hwl
    have h1 := expandStep_mask_wall storage w h ((i0 : Int) % w)
      ((i0 : Int) / w) cost0 a1 ((1, 0), 10, 4) 2 (by decide)
      (by dsimp only; omega) hwl
    rw [← ha2] at h1
    have h2 := expandStep_mask_mono storage w h ((i0 : Int) % w)
      ((i0 : Int) / w) cost0 a2 ((0, -1), 10, 2) 2 h1
    rw [← ha3] at h2
    have h3 := expandStep_mask_mono storage w h ((i0 : Int) % w)
      ((i0 : Int) / w) cost0 a3 ((-1, 0), 10, 1) 2 h2
    rw [← ha4] at h3
    exact h3
  have hS : 0 ≤ (i0 : Int) / w + -1 →
      storage.getD ((i0 : Int) % w + ((i0 : Int) / w + -1) * w).toNat 0 ≠ 0 →
      a4.wallMask.testBit 1 = true := by
    intro hbd hwl
    have he : (i0 : Int) % w + ((i0 : Int) / w + -1) * w =
        (i0 : Int) % w + 0 + ((i0 : Int) / w + -1) * w := by ring
    rw [he] at hwl
    have h1 := expandStep_mask_wall storage w h ((i0 : Int) % w)
      ((i0 : Int) / w) cost0 a2 ((0, -1), 10, 2) 1 (by decide)
      (by dsimp only; omega) hwl
    rw [← ha3] at h1
    have h2 := expandStep_mask_mono storage w h ((i0 : Int) % w)
      ((i0 : Int) / w) cost0 a3 ((-1, 0), 10, 1) 1 h1
    rw [← ha4] at h2
    exact h2
  have hW : 0 ≤ (i0 : Int) % w + -1 →
      storage.getD ((i0 : Int) % w + -1 + ((i0 : Int) / w) * w).toNat 0 ≠ 0 →
      a4.wallMask.testBit 0 = true := by
    intro hbd hwl
    have he : (i0 : Int) % w + -1 + ((i0 : Int) / w) * w =
        (i0 : Int) % w + -1 + ((i0 : Int) / w + 0) * w := by ring
    rw [he] at hwl
    have h1 := expandStep_mask_wall storage w h ((i0 : Int) % w)
      ((i0 : Int) / w) cost0 a3 ((-1, 0), 10, 1) 0 (by decide)
      (by dsimp only; omega) hwl
    rw [← ha4] at h1
    exact h1
  have hm45 : ∀ b, a4.wallMask.testBit b = true →
      a5.wallMask.testBit b = true := by
    intro b hb
    have h1 := expandStep_mask_mono storage w h ((i0 : Int) % w)
      ((i0 : Int) / w) cost0 a4 ((1, 1), 14, 192) b hb
    rw [← ha5] at h1
    exact h1
  have hm46 : ∀ b, a4.wallMask.testBit b = true →
      a6.wallMask.testBit b = true := by
    intro b hb
    have h1 := expandStep_mask_mono storage w h ((i0 : Int) % w)
      ((i0 : Int) / w) cost0 a5 ((1, -1), 14, 96) b (hm45 b hb)
    rw [← ha6] at h1
    exact h1
  have hm47 : ∀ b, a4.wallMask.testBit b = true →
      a7.wallMask.testBit b = true := by
    intro b hb
    have h1 := expandStep_mask_mono storage w h ((i0 : Int) % w)
      ((i0 : Int) / w) cost0 a6 ((-1, -1), 14, 48) b (hm46 b hb)
    rw [← ha7] at h1
    exact h1
  have hinv1 : EInv storage w h start g i0 cost0 a1 := by
    rw [ha1]
    exact expandStep_inv storage w h start g i0 cost0 a0 ((0, 1), 10, 8)
      hw hh (by decide) hT hinv (fun h14 => absurd h14 (by decide))
  have hinv2 : EInv storage w h start g i0 cost0 a2 := by
    rw [ha2]
    exact expandStep_inv storage w h start g i0 cost0 a1 ((1, 0), 10, 4)
      hw hh (by decide) hT hinv1 (fun h14 => absurd h14 (by decide))
  have hinv3 : EInv storage w h start g i0 cost0 a3 := by
    rw [ha3]
    exact expandStep_inv storage w h start g i0 cost0 a2 ((0, -1), 10, 2)
      hw hh (by decide) hT hinv2 (fun h14 => absurd h14 (by decide))
  have hinv4 : EInv storage w h start g i0 cost0 a4 := by
    rw [ha4]
    exact expandStep_inv storage w h start g i0 cost0 a3 ((-1, 0), 10, 1)
      hw hh (by decide) hT hinv3 (fun h14 => absurd h14 (by decide))
  have hinv5 : EInv storage w h start g i0 cost0 a5 := by
    rw [ha5]
    refine expandStep_inv storage w h start g i0 cost0 a4 ((1, 1), 14, 192)
      hw hh (by decide) hT hinv4 ?_
    intro _ hbounds hmz
    dsimp only at hbounds hmz ⊢
    have hb2 : a4.wallMask.testBit 2 = false :=
      mask_bit_clear a4.wallMask _ 2 (by norm_num) hmz (by decide)
    have hb3 : a4.wallMask.testBit 3 = false :=
      mask_bit_clear a4.wallMask _ 3 (by norm_num) hmz (by decide)
    constructor
    · by_contra hwall
      have hcon := hE (by omega) hwall
      rw [hb2] at hcon
      simp at hcon
    · by_contra hwall
      have hcon := hN (by omega) hwall
      rw [hb3] at hcon
      simp at hcon
  have hinv6 : EInv storage w h start g i0 cost0 a6 := by
    rw [ha6]
    refine expandStep_inv storage w h start g i0 cost0 a5 ((1, -1), 14, 96)
      hw hh (by decide) hT hinv5 ?_
    intro _ hbounds hmz
    dsimp only at hbounds hmz ⊢
    have hb2 : a5.wallMask.testBit 2 = false :=
      mask_bit_clear a5.wallMask _ 2 (by norm_num) hmz (by decide)
    have hb1 : a5.wallMask.testBit 1 = false :=
      mask_bit_clear a5.wallMask _ 1 (by norm_num) hmz (by decide)
    constructor
    · by_contra hwall
      have hcon := hm45 2 (hE (by omega) hwall)
      rw [hb2] at hcon
      simp at hcon
    · by_contra hwall
      have hcon := hm45 1 (hS (by omega) hwall)
      rw [hb1] at hcon
      simp at hcon
  have hinv7 : EInv storage w h start g i0 cost0 a7 := by
    rw [ha7]
    refine expandStep_inv storage w h start g i0 cost0 a6 ((-1, -1), 14, 48)
      hw hh (by decide) hT hinv6 ?_
    intro _ hbounds hmz
    dsimp only at hbounds hmz ⊢
    have hb0 : a6.wallMask.testBit 0 = false :=
      mask_bit_clear a6.wallMask _ 0 (by norm_num) hmz (by decide)
    have hb1 : a6.wallMask.testBit 1 = false :=
      mask_bit_clear a6.wallMask _ 1 (by norm_num) hmz (by decide)
    constructor
    · by_contra hwall
      have hcon := hm46 0 (hW (by omega) hwall)
      rw [hb0] at hcon
      simp at hcon
    · by_contra hwall
      have hcon := hm46 1 (hS (by omega) hwall)
      rw [hb1] at hcon
      simp at hcon
  refine expandStep_inv storage w h start g i0 cost0 a7 ((-1, 1), 14, 144)
    hw hh (by decide) hT hinv7 ?_
  intro _ hbounds hmz
  dsimp only at hbounds hmz ⊢
  have hb0 : a7.wallMask.testBit 0 = false :=
    mask_bit_clear a7.wallMask _ 0 (by norm_num) hmz (by decide)
  have hb3 : a7.wallMask.testBit 3 = false :=
    mask_bit_clear a7.wallMask _ 3 (by norm_num) hmz (by decide)
  constructor
  · by_contra hwall
    have hcon := hm47 0 (hW (by omega) hwall)
    rw [hb0] at hcon
    simp at hcon
  · by_contra hwall
    have hcon := hm47 3 (hN (by omega) hwall)
    rw [hb3] at hcon
    simp at hcon

/-- Helper: one pop-and-expand iteration preserves the wavefront invariant
and yields the per-round bookkeeping facts: the popped node's stored cost is
the authoritative grid value at its index, visitedness only grows, and the
cells pushed in this round were unvisited before the round and visited after
it, with no duplicates among them. -/
theorem popExpand_inv (storage : List Nat) (w h : Int) (start : Nat)
    (s s' : CostState) (nd : Node) (pushed : List Nat)
    (hw : 0 < w) (hh : 0 < h) (hT : 14 * tiles w h < U32MAX)
    (hinv : WFInv storage w h start s)
    (he : popExpand storage w h s = some (s', nd, pushed)) :
    WFInv storage w h start s' ∧
    (∀ j, (s.costGrid.getD j (U32MAX, false)).2 = true →
      (s'.costGrid.getD j (U32MAX, false)).2 = true) ∧
    (∀ j ∈ pushed, (s'.costGrid.getD j (U32MAX, false)).2 = true ∧
      (s.costGrid.getD j (U32MAX, false)).2 = false) ∧
    pushed.Nodup ∧
    nd.index < tiles w h ∧ storage.getD nd.index 0 = 0 ∧
    s.costGrid.getD nd.index (U32MAX, false) = (nd.cost, true) := by
  obtain ⟨hgl, hhm, hrc⟩ := hinv
  unfold popExpand at he
  cases hp : heapPop s.heap with
  | none => rw [hp] at he; exact absurd he (by simp)
  | some pr =>
    obtain ⟨nd0, heap'⟩ := pr
    rw [hp] at he
    dsimp only at he
    simp only [Option.some.injEq, Prod.mk.injEq] at he
    obtain ⟨hs', hnd, hpush⟩ := he
    subst hnd
    subst hpush
    subst hs'
    obtain ⟨hndmem, hsub⟩ := heapPop_mem s.heap nd0 heap' hp
    obtain ⟨hi1, hi2, hi3, hi4⟩ := hhm nd0 hndmem
    have hinit : EInv storage w h start s.costGrid nd0.index nd0.cost
        { costGrid := s.costGrid, heap := heap', wallMask := 0,
          pushed := [] } := by
      refine ⟨hgl, ?_, hrc, fun j hj => hj, ⟨hi3, hi2, hi1, hi4⟩, ?_, ?_⟩
      · intro x hx
        exact hhm x (hsub x hx)
      · intro j hj
        exact absurd hj (List.not_mem_nil j)
      · exact List.nodup_nil
    have hfin := expandNeighbors_inv storage w h start nd0.index nd0.cost
      s.costGrid heap' hw hh hT hinit
    exact ⟨⟨hfin.glen, hfin.hmem, hfin.reach⟩, hfin.vmono, hfin.pOk,
      hfin.pNodup, hi1, hi2, hi3⟩

/-- Helper: draining any number of rounds preserves the wavefront
invariant. -/
theorem drainLoop_inv (storage : List Nat) (w h : Int) (start : Nat)
    (hw : 0 < w) (hh : 0 < h) (hT : 14 * tiles w h < U32MAX) :
    ∀ (fuel : Nat) (s : CostState), WFInv storage w h start s →
      WFInv storage w h start (drainLoop storage w h fuel s) := by
  intro fuel
  induction fuel with
  | zero => intro s hs; exact hs
  | succ n ih =>
    intro s hs
    unfold drainLoop
    cases hp : popExpand storage w h s with
    | none => exact hs
    | some tr =>
      obtain ⟨s', nd, pushed⟩ := tr
      exact ih s' (popExpand_inv storage w h start s s' nd pushed
        hw hh hT hs hp).1

/-- Helper: every index on the ghost push trace was unvisited in the state
the trace started from. -/
theorem drainTrace_unvisited (storage : List Nat) (w h : Int) (start : Nat)
    (hw : 0 < w) (hh : 0 < h) (hT : 14 * tiles w h < U32MAX) :
    ∀ (fuel : Nat) (s : CostState), WFInv storage w h start s →
      ∀ j ∈ drainTrace storage w h fuel s,
        (s.costGrid.getD j (U32MAX, false)).2 = false := by
  intro fuel
  induction fuel with
  | zero => intro s hs j hj; simp [drainTrace] at hj
  | succ n ih =>
    intro s hs j hj
    unfold drainTrace at hj
    cases hp : popExpand storage w h s with
    | none => rw [hp] at hj; simp at hj
    | some tr =>
      obtain ⟨s', nd, pushed⟩ := tr
      rw [hp] at hj
      dsimp only at hj
      obtain ⟨hwf', hmono, hpok, -, -, -, -⟩ := popExpand_inv storage w h
        start s s' nd pushed hw hh hT hs hp
      rcases List.mem_append.mp hj with hjp | hjt
      · exact (hpok j hjp).2
      · have hj' := ih s' hwf' j hjt
        by_contra hc
        rw [Bool.not_eq_false] at hc
        rw [hmono j hc] at hj'
        exact absurd hj' (by simp)

/-- Helper: the ghost push trace of a drain never repeats an index: every
pushed index is freshly visited in its round and stays visited. -/
theorem drainTrace_nodup (storage : List Nat) (w h : Int) (start : Nat)
    (hw : 0 < w) (hh : 0 < h) (hT : 14 * tiles w h < U32MAX) :
    ∀ (fuel : Nat) (s : CostState), WFInv storage w h start s →
      (drainTrace storage w h fuel s).Nodup := by
  intro fuel
  induction fuel with
  | zero => intro s hs; simp [drainTrace]
  | succ n ih =>
    intro s hs
    unfold drainTrace
    cases hp : popExpand storage w h s with
    | none => simp
    | some tr =>
      obtain ⟨s', nd, pushed⟩ := tr
      dsimp only
      obtain ⟨hwf', hmono, hpok, hnodup, -, -, -⟩ := popExpand_inv storage w h
        start s s' nd pushed hw hh hT hs hp
      rw [List.nodup_append]
      refine ⟨hnodup, ih s' hwf', ?_⟩
      intro j hjp hjt
      have h1 := (hpok j hjp).1
      have h2 := drainTrace_unvisited storage w h start hw hh hT n s' hwf'
        j hjt
      rw [h1] at h2
      exact absurd h2 (by simp)

/-- Helper: the reseeded grid reads `(0, true)` at the seed. -/
theorem reseed_start (base : List (Nat × Bool)) (start : Nat)
    (h : start < base.length) :
    (reseed base start).costGrid.getD start (U32MAX, false) = (0, true) := by
  unfold reseed
  dsimp only
  exact getD_set_self _ _ _ _ (by simpa using h)

/-- Helper: the reseeded start state of a wavefront satisfies the wavefront
invariant, given an in-bounds open seed. -/
theorem reseed_inv (storage : List Nat) (w h : Int) (start : Nat)
    (base : List (Nat × Bool)) (hw : 0 < w) (hh : 0 < h)
    (hlen : base.length = tiles w h) (hstart : start < tiles w h)
    (hopen : storage.getD start 0 = 0) :
    WFInv storage w h start (reseed base start) := by
  have hslen : start < ((base.map fun c => (c.1, false))).length := by
    simp [hlen, hstart]
  have hgstart : (reseed base start).costGrid.getD start (U32MAX, false)
      = (0, true) := reseed_start base start (by omega)
  have hmapf : ∀ j, (((base.map fun c => (c.1, false)) :
      List (Nat × Bool)).getD j (U32MAX, false)).2 = false := by
    intro j
    rw [List.getD_eq_getElem?_getD]
    cases hg : (base.map fun c => (c.1, false))[j]? with
    | none => simp
    | some v =>
      have hv : v ∈ base.map fun c => (c.1, false) := List.getElem?_mem hg
      obtain ⟨c, -, hc⟩ := List.mem_map.mp hv
      rw [← hc]
      rfl
  refine ⟨?_, ?_, ?_⟩
  · unfold reseed
    simp [hlen]
  · intro nd hnd
    have hnd' : nd = ⟨start, 0⟩ := by
      simpa [reseed] using hnd
    subst hnd'
    exact ⟨hstart, hopen, hgstart, Nat.zero_le _⟩
  · intro j hj hvis hfin
    by_cases hjs : j = start
    · subst hjs
      refine ⟨[j], ?_, rfl, by simp⟩
      show vertexOk storage w h (reseed base j).costGrid j = true
      rw [vertexOk_iff]
      refine ⟨hj, hopen, ?_, ?_⟩
      · rw [hgstart]
      · rw [hgstart]
        decide
    · exfalso
      have : ((reseed base start).costGrid.getD j (U32MAX, false)).2
          = false := by
        unfold reseed
        dsimp only
        rw [getD_set_ne _ _ _ _ _ (fun hees => hjs hees.symm)]
        exact hmapf j
      rw [hvis] at this
      exact absurd this (by simp)

/-- C1 counterexample: on a 6×6 grid with walls at indices 8, 9 and 33 and
the transient target at index 3, the fully drained wavefront (empty
frontier) records cost 72 at tile 31, yet the explicit valid 8-directional
path `pathC1` from the target to tile 31 (seven orthogonal moves, all flank
and wall rules respected) has total step cost 70 < 72 — so the drained cost
grid is not the minimal path cost and disagrees with Dijkstra. -/
theorem C1_counterexample :
    drainedC1.heap = [] ∧
    drainedC1.costGrid.getD 31 (U32MAX, false) = (72, true) ∧
    pathC1.head? = some 3 ∧ pathC1.getLast? = some 31 ∧
    pathCost storageC1 6 6 pathC1 = some 70 ∧ 70 < 72 := by
  decide

/-- C1 (amended): after any number of pop-and-expand rounds of a wavefront
seeded at an in-bounds open cell, every visited cell with a finite recorded
cost is reached by a discovered path from the seed — a valid 8-directional
path (orthogonal step 10, diagonal step 14, walls and flanking rule
respected) along which the recorded cost grows by exactly the step cost of
each move, so the recorded cost strictly increases away from the seed and
equals the total step cost of that discovered path.  (Minimality, the rest
of the original claim, fails: see the counterexample.) -/
theorem C1_wavefront_discovered_paths (storage : List Nat) (w h : Int)
    (start fuel : Nat) (hw : 0 < w) (hh : 0 < h)
    (hstart : start < tiles w h) (hopen : storage.getD start 0 = 0)
    (hT : 14 * tiles w h < U32MAX) :
    ∀ j, j < tiles w h →
      ((runWavefront storage w h start fuel).costGrid.getD j
        (U32MAX, false)).2 = true →
      ((runWavefront storage w h start fuel).costGrid.getD j
        (U32MAX, false)).1 ≠ U32MAX →
      ∃ p, DiscoveredPath storage w h
        (runWavefront storage w h start fuel).costGrid start j p := by
  have hbase : (List.replicate (w * h).toNat
      ((U32MAX : Nat), false)).length = tiles w h := by
    simp [tiles]
  have h0 := reseed_inv storage w h start _ hw hh hbase hstart hopen
  have h1 := drainLoop_inv storage w h start hw hh hT fuel _ h0
  exact h1.reach

/-- Witness for C1: on the 1×1 open grid the fully drained wavefront
reaches its seed by a discovered path. -/
theorem C1_witness :
    ∃ p, DiscoveredPath [0] 1 1 (runWavefront [0] 1 1 0 1).costGrid 0 0 p :=
  C1_wavefront_discovered_paths [0] 1 1 0 1 (by decide) (by decide)
    (by decide) (by decide) (by decide) 0 (by decide) (by decide) (by decide)

/-- C10: within one wavefront (from a reseed on), each cell is pushed onto
the frontier at most once — the seed once at the reseed, and every other
cell only at its unvisited-to-visited transition, so the ghost push trace
together with the seed has no duplicates — and at every reachable state
each frontier entry's stored cost equals the authoritative cost-grid value
at its index (no stale entries), so every popped node's cost is the grid
value at the time of the pop. -/
theorem C10_push_once_no_stale (storage : List Nat) (w h : Int)
    (start : Nat) (hw : 0 < w) (hh : 0 < h) (hstart : start < tiles w h)
    (hopen : storage.getD start 0 = 0) (hT : 14 * tiles w h < U32MAX) :
    ∀ fuel : Nat,
      (start :: drainTrace storage w h fuel
        (reseed (List.replicate (tiles w h) (U32MAX, false)) start)).Nodup ∧
      ∀ nd ∈ (drainLoop storage w h fuel
          (reseed (List.replicate (tiles w h) (U32MAX, false)) start)).heap,
        (drainLoop storage w h fuel
            (reseed (List.replicate (tiles w h)
              (U32MAX, false)) start)).costGrid.getD
          nd.index (U32MAX, false) = (nd.cost, true) := by
  intro fuel
  have hbase : (List.replicate (tiles w h)
      ((U32MAX : Nat), false)).length = tiles w h := by
    simp
  have h0 := reseed_inv storage w h start _ hw hh hbase hstart hopen
  have hfin := drainLoop_inv storage w h start hw hh hT fuel _ h0
  constructor
  · rw [List.nodup_cons]
    refine ⟨?_, drainTrace_nodup storage w h start hw hh hT fuel _ h0⟩
    intro hmem
    have hun := drainTrace_unvisited storage w h start hw hh hT fuel _ h0
      start hmem
    rw [reseed_start _ _ (by rw [hbase]; exact hstart)] at hun
    exact absurd hun (by simp)
  · intro nd hnd
    exact (hfin.hmem nd hnd).2.2.1

/-- Witness for C10: the 1×1 open grid, drained for one round. -/
theorem C10_witness :
    ((0 : Nat) :: drainTrace [0] 1 1 1
      (reseed (List.replicate (tiles 1 1) (U32MAX, false)) 0)).Nodup ∧
    ∀ nd ∈ (drainLoop [0] 1 1 1
        (reseed (List.replicate (tiles 1 1) (U32MAX, false)) 0)).heap,
      (drainLoop [0] 1 1 1
          (reseed (List.replicate (tiles 1 1)
            (U32MAX, false)) 0)).costGrid.getD
        nd.index (U32MAX, false) = (nd.cost, true) :=
  C10_push_once_no_stale [0] 1 1 0 (by decide) (by decide) (by decide)
    (by decide) (by decide) 1
